/-
  Verification development for the KB metrics engine
  (metrics_knowledge_base.py: schema parsing, row loading/padding, column
  resolution, the three-pass percentile engine, score computation and
  serialization).

  The Python source is shallowly embedded below: dictionaries become
  insertion-ordered association lists, Python exceptions become an `Err`
  sum carried through `Except`, numpy float arithmetic is idealized as
  exact rational (`ℚ`) arithmetic, and `"%.2f"` formatting is modelled as
  rounding to the nearest hundredth (half away from zero on the exact
  rational).  All definitions are executable.
-/
import Mathlib

namespace KBM

/-- Python exception kinds arising in the embedded code paths. -/
inductive Err where
  /-- IndexError: a row does not have the requested column. -/
  | idx : Err
  /-- KeyError: dictionary lookup of a missing key. -/
  | key : Err
  /-- RuntimeError: column name does not exist for this line. -/
  | colName : Err
  /-- RuntimeError: TYPE column must be at same column for each entity type. -/
  | typeCol : Err
  /-- AttributeError: a HEAD first field failed to match the first-column pattern. -/
  | headMatch : Err
  /-- ValueError: int() applied to a non-numeric string. -/
  | value : Err
  /-- NameError: metric name matched no branch, so `value` is unbound. -/
  | name : Err
  /-- TypeError: joining a None key into a string. -/
  | typeErr : Err
  deriving DecidableEq, Repr

/-- Boolean success test for `Except` results. -/
def exceptIsOk {ε α : Type} : Except ε α → Bool
  | .ok _ => true
  | .error _ => false

/-- Turn an `Option` into an `Except` with the given error (models a raising lookup). -/
def fromOpt {α : Type} (o : Option α) (e : Err) : Except Err α :=
  match o with
  | some a => .ok a
  | none => .error e

/-- Association-list lookup: the value stored at the first occurrence of the key.
Models Python dictionary read access. -/
def aget {K V : Type} [DecidableEq K] : List (K × V) → K → Option V
  | [], _ => none
  | (k', v) :: r, k => if k = k' then some v else aget r k

/-- Association-list insert-or-update: replaces the value at an existing key in
place (preserving its position, as Python dict assignment does) or appends a new
binding at the end. -/
def aupd {K V : Type} [DecidableEq K] : List (K × V) → K → (Option V → V) → List (K × V)
  | [], k, f => [(k, f none)]
  | (k', v') :: r, k, f => if k = k' then (k', f (some v')) :: r else (k', v') :: aupd r k f

/-- Plain insert-or-update with a value (Python `d[k] = v`). -/
def aset {K V : Type} [DecidableEq K] (m : List (K × V)) (k : K) (v : V) : List (K × V) :=
  aupd m k (fun _ => v)

/-- `metrics_names` from the source. -/
def metricsNames : List String := ["SCORE WIKI", "SCORE METRICS", "CONFIDENCE"]

/-- `stats_names` from the source. -/
def statsNames : List String := ["WIKI BACKLINKS", "WIKI HITS", "WIKI PRIMARY SENSE"]

/-- `all_stats = stats_names + metrics_names` from the source. -/
def allStats : List String := statsNames ++ metricsNames

/-- First-occurrence deduplication of a list, modelling `OrderedSet(...)`. -/
def odedupAux (seen : List String) : List String → List String
  | [] => []
  | x :: xs => if x ∈ seen then odedupAux seen xs else x :: odedupAux (x :: seen) xs

/-- `OrderedSet(l)`: keep the first occurrence of each element, in order. -/
def odedup (l : List String) : List String := odedupAux [] l

/-- One type block of the schema: attribute name (possibly the unnamed `None`
key produced when a first column has no name part) to local column offset.
Models one value of the Python `headKB` dict; insertion order is preserved. -/
abbrev Block := List (Option String × Nat)

/-- The parsed schema: entity-type tag to its block.  Models `self.headKB`. -/
abbrev HeadKB := List (String × Block)

/-- Width of a block: `sum([1 for attr in headKB[t] if attr is not None])` —
the number of named attributes (the `None` key does not count). -/
def blockWidth (b : Block) : Nat := (b.filter (fun p => p.1.isSome)).length

/-- Does the character count as `\w` or space in the HEAD column patterns?
(`re` `\w` idealized to ASCII alphanumerics plus underscore.) -/
def isNameChar (c : Char) : Bool := c.isAlphanum || c = '_' || c = ' '

/-- Match the body `(?:\w|[ ])+` of a column name (nonempty run of name chars). -/
def nameBody (cs : List Char) : Option String :=
  if cs ≠ [] ∧ cs.all isNameChar then some (String.mk cs) else none

/-- After an opening `{`, consume `FLAGS` `(?:\w|[ ])*`, an optional
`\[PREFIX\]` with nonempty `PREFIX = [^\]]+`, and the closing `}`;
return the remaining characters. -/
def flagsPart (cs : List Char) : Option (List Char) :=
  match cs.dropWhile isNameChar with
  | '}' :: r => some r
  | '[' :: r =>
      let pre := r.takeWhile (fun c => c ≠ ']')
      let post := r.dropWhile (fun c => c ≠ ']')
      if pre = [] then none
      else match post with
        | ']' :: '}' :: r2 => some r2
        | _ => none
  | _ => none

/-- `PARSER_PATTERN` applied to a whole field: optional `{FLAGS[PREFIX]}`
wrapper, then a mandatory NAME.  Returns the NAME on a match. -/
def matchOther (s : String) : Option String :=
  match s.toList with
  | '{' :: rest => (flagsPart rest).bind nameBody
  | cs => nameBody cs

/-- `PARSER_FIRST` applied to a first field: `<TYPE>` then an optional
`PARSER_PATTERN`.  Returns the type tag and the optional NAME. -/
def matchFirst (s : String) : Option (String × Option String) :=
  match s.toList with
  | '<' :: rest =>
      let ty := rest.takeWhile (fun c => c ≠ '>')
      let post := rest.dropWhile (fun c => c ≠ '>')
      if ty = [] then none
      else match post with
        | '>' :: r =>
            if r = [] then some (String.mk ty, none)
            else match matchOther (String.mk r) with
              | some nm => some (String.mk ty, some nm)
              | none => none
        | _ => none
  | _ => none

/-- Running state of `getDictHeadKB`'s scan: the schema built so far, the
TYPE column seen so far, the current head type, and the Python local
`col_name`, which persists across loop iterations (this staleness is
load-bearing for claim C8). -/
structure HSt where
  hkb : HeadKB
  entCol : Option Nat
  headType : String
  colName : Option String
  deriving DecidableEq, Repr

/-- The `if col_name == "TYPE"` consistency check at the end of each column
iteration of `getDictHeadKB`. -/
def hCheck (st : HSt) (colIdx : Nat) : Except Err HSt :=
  if st.colName = some "TYPE" then
    match st.entCol with
    | none => .ok { st with entCol := some colIdx }
    | some c => if c = colIdx then .ok st else .error .typeCol
  else .ok st

/-- One column iteration of `getDictHeadKB`: column 0 goes through
`PARSER_FIRST` (a failed match raises), later columns through
`PARSER_OTHER` (a failed match registers nothing and leaves `col_name`
stale). -/
def hCol (st : HSt) (colIdx : Nat) (field : String) : Except Err HSt :=
  if colIdx = 0 then
    match matchFirst field with
    | none => .error .headMatch
    | some (ty, nm) =>
        let hkb1 := if (aget st.hkb ty).isSome then st.hkb else st.hkb ++ [(ty, [])]
        let blk := (aget hkb1 ty).getD []
        let hkb2 := aset hkb1 ty (aset blk nm 0)
        hCheck { st with hkb := hkb2, headType := ty, colName := nm } 0
  else
    match matchOther field with
    | none => hCheck st colIdx
    | some nm =>
        let blk := (aget st.hkb st.headType).getD []
        let hkb2 := aset st.hkb st.headType (aset blk (some nm) colIdx)
        hCheck { st with hkb := hkb2, colName := some nm } colIdx

/-- Columns of a HEAD line from index `i` on. -/
def hCols (st : HSt) (i : Nat) : List String → Except Err HSt
  | [] => .ok st
  | f :: fs => do
      let st' ← hCol st i f
      hCols st' (i + 1) fs

/-- One HEAD line of `getDictHeadKB`. -/
def hLine (st : HSt) (fields : List String) : Except Err HSt := hCols st 0 fields

/-- `getDictHeadKB`: parse the HEAD lines into the schema dictionary and the
absolute column of the TYPE attribute. -/
def getDictHeadKB (headLines : List (List String)) : Except Err (HeadKB × Option Nat) := do
  let st ← headLines.foldlM hLine { hkb := [], entCol := none, headType := "", colName := none }
  return (st.hkb, st.entCol)

/-- In-memory state of a `KnowledgeBase` instance after construction, with the
KB data loaded (`getKBLines` is lazy in the source; file contents are modelled
as the `headLines`/`lines` fields). -/
structure KBState where
  headKB : HeadKB
  entTypeCol : Option Nat
  headLines : List (List String)
  version : String
  lines : List (List String)
  /-- `self.metrics`: bucket key ↦ metric name ↦ list of observed raw values. -/
  metrics : List (List String × List (String × List Int))
  /-- `self.metric_index`: bucket key ↦ metric name ↦ raw value ↦ percentile. -/
  metricIndex : List (List String × List (String × List (Int × ℚ)))
  deriving DecidableEq, Repr

/-- `self.metrics`' type. -/
abbrev Metrics := List (List String × List (String × List Int))

/-- `self.metric_index`'s type. -/
abbrev MetricIndex := List (List String × List (String × List (Int × ℚ)))

/-- The state right after `__init__`: `self.metrics` and `self.metric_index`
start as empty dictionaries. -/
def initState (hkb : HeadKB) (ec : Option Nat) (hl : List (List String))
    (ver : String) (ls : List (List String)) : KBState :=
  { headKB := hkb, entTypeCol := ec, headLines := hl, version := ver, lines := ls,
    metrics := [], metricIndex := [] }

/-- `get_field` on a materialized row: `line[column]`, IndexError if out of range. -/
def getF (row : List String) (i : Nat) : Except Err String :=
  fromOpt row[i]? .idx

/-- Read the row's TYPE field (`get_field(line, self.ent_type_col)`; an unset
`ent_type_col` is a crash in the source). -/
def getTypeField (s : KBState) (row : List String) : Except Err String := do
  let c ← fromOpt s.entTypeCol .typeErr
  getF row c

/-- The `__generic__`-prefix / `__stats__`-suffix augmentation of a declared
type set, applied by `get_ent_type` when the schema carries those blocks. -/
def entAug (hkb : HeadKB) (ts : List String) : List String :=
  let ts1 := if (aget hkb "__generic__").isSome && !(ts.contains "__generic__")
             then "__generic__" :: ts else ts
  if (aget hkb "__stats__").isSome && !(ts1.contains "__stats__")
  then ts1 ++ ["__stats__"] else ts1

/-- `get_ent_type`: split the TYPE field on `+`, deduplicate preserving order,
prepend `__generic__` and append `__stats__` when the schema has them and the
row does not declare them. -/
def getEntType (s : KBState) (row : List String) : Except Err (List String) := do
  let tf ← getTypeField s row
  return entAug s.headKB (odedup (tf.splitOn "+"))

/-- Insertion sort of strings, used as the canonical order-independent form of
a type set (`repr(set(ent_type_set))` keys buckets by the set alone). -/
def canonKey (ts : List String) : List String := List.insertionSort (fun a b => a ≤ b) ts

/-- The statistics bucket key `repr(set(self.get_ent_type(line)))` computed at
both indexing sites (`insert_metrics`'s collect pass and `metric_percentile`). -/
def indexKeyOf (s : KBState) (row : List String) : Except Err (List String) := do
  let ts ← getEntType s row
  return canonKey ts

/-- Walk the row's type blocks accumulating skipped widths: the core loop of
`get_col_for`. -/
def walkCols (hkb : HeadKB) (colName : Option String) (acc : Nat) :
    List String → Except Err Nat
  | [] => .error .colName
  | t :: ts =>
      match aget hkb t with
      | none => .error .key
      | some blk =>
          match aget blk colName with
          | some c => .ok (acc + c)
          | none => walkCols hkb colName (acc + blockWidth blk) ts

/-- `get_col_for(line, col_name, col_name_type)`: resolve an attribute name to
an absolute column for this row.  The `colNameType` argument is accepted and —
exactly as in the source — never used. -/
def getColFor (s : KBState) (row : List String) (colName : Option String)
    (colNameType : Option String) : Except Err Nat := do
  let ts ← getEntType s row
  walkCols s.headKB colName 0 ts

/-- `get_data_for`: read the resolved column, normalizing `''` and `'NF'` to `'0'`. -/
def getDataFor (s : KBState) (row : List String) (colName : Option String)
    (colNameType : Option String) : Except Err String := do
  let c ← getColFor s row colName colNameType
  let v ← getF row c
  return (if v = "" ∨ v = "NF" then "0" else v)

/-- `nonempty_columns`: count the row's non-empty fields outside the
`__stats__` metric columns. -/
def nonemptyColumns (s : KBState) (row : List String) : Except Err Nat := do
  let mcols ←
    match aget s.headKB "__stats__" with
    | some blk => (blk.map Prod.fst).mapM (fun k => getColFor s row k (some "__stats__"))
    | none => pure []
  return (row.enum.filter (fun p => !(mcols.contains p.1) && p.2 ≠ "")).length

/-- `description_length`: length of `get_data_for(line, "DESCRIPTION")`. -/
def descriptionLength (s : KBState) (row : List String) : Except Err Nat := do
  let d ← getDataFor s row (some "DESCRIPTION") none
  return d.length

/-- `get_wiki_value`: name translation in front of `get_data_for`. -/
def getWikiValue (s : KBState) (row : List String) (columnName : String) :
    Except Err String :=
  if columnName = "link" then getDataFor s row (some "WIKIPEDIA URL") none
  else if columnName = "backlinks" then getDataFor s row (some "WIKI BACKLINKS") none
  else if columnName = "hits" then getDataFor s row (some "WIKI HITS") none
  else if columnName = "ps" then getDataFor s row (some "WIKI PRIMARY SENSE") none
  else getDataFor s row (some columnName) none

/-- Python `int(...)` on a string (sign and digits; anything else raises). -/
def pyInt (v : String) : Except Err Int := fromOpt v.toInt? .value

/-- Three-level lookup `metric_index[key][metric][value]`. -/
def aget3 (idx : MetricIndex) (key : List String) (metric : String) (v : Int) :
    Option ℚ :=
  (aget idx key).bind fun inner => (aget inner metric).bind fun e => aget e v

/-- The raw-value computation of `metric_percentile`: dispatch on the metric
name (an unknown name leaves the Python local `value` unbound, a NameError). -/
def metricValue (s : KBState) (row : List String) (metric : String) : Except Err Int :=
  if metric = "description_length" then do
    let n ← descriptionLength s row
    pure (n : Int)
  else if metric = "columns_number" then do
    let n ← nonemptyColumns s row
    pure (n : Int)
  else if metric.take 4 = "wiki" then do
    let vs ← getWikiValue s row (metric.drop 5)
    if vs = "" then pure 0 else pyInt vs
  else .error .name

/-- `metric_percentile(line, metric)`: recompute the row's raw value for the
metric and look its percentile up in `self.metric_index`. -/
def metricPercentile (s : KBState) (row : List String) (metric : String) :
    Except Err ℚ := do
  let key ← indexKeyOf s row
  let value ← metricValue s row metric
  fromOpt (aget3 s.metricIndex key metric value) .key

/-- `check_all_stats_present`: every name of `all_stats` is a key of
`self.headKB['__stats__']` (a missing `__stats__` entry raises KeyError). -/
def checkAllStatsPresent (s : KBState) : Except Err Bool := do
  let blk ← fromOpt (aget s.headKB "__stats__") .key
  return allStats.all (fun st => (aget blk (some st)).isSome)

/-- One step of `check_add_kb_stats`'s metric loop: if the metric name is not
yet a key of `headKB['__stats__']`, append it at offset
`len(headKB['__stats__'])`. -/
def addMetricStep (h : HeadKB) (mname : String) : HeadKB :=
  let b := (aget h "__stats__").getD []
  if (aget b (some mname)).isSome then h
  else aset h "__stats__" (b ++ [(some mname, b.length)])

/-- `check_add_kb_stats`: require `__stats__` with the three input statistics,
then append any missing metric column at offset `len(headKB['__stats__'])`.
Returns the success flag together with the (possibly) updated state. -/
def checkAddKbStats (s : KBState) : Bool × KBState :=
  match aget s.headKB "__stats__" with
  | none => (false, s)
  | some blk =>
      if statsNames.all (fun st => (aget blk (some st)).isSome) then
        (true, { s with headKB := metricsNames.foldl addMetricStep s.headKB })
      else (false, s)

/-- Append one observation: `metrics.setdefault(key, {}).setdefault(j, []).append(v)`. -/
def mAppend (m : Metrics) (key : List String) (j : String) (v : Int) : Metrics :=
  aupd m key (fun o => aupd (o.getD []) j (fun o2 => o2.getD [] ++ [v]))

/-- The collect pass body for one row: always record `columns_number` and
`description_length`; record the three wiki observations when the (normalized)
backlinks string is non-empty. -/
def collectRow (s : KBState) (m : Metrics) (row : List String) : Except Err Metrics := do
  let key ← indexKeyOf s row
  let cn ← nonemptyColumns s row
  let m := mAppend m key "columns_number" (cn : Int)
  let dl ← descriptionLength s row
  let m := mAppend m key "description_length" (dl : Int)
  let bl ← getWikiValue s row "backlinks"
  if bl ≠ "" then do
    let bv ← pyInt (← getWikiValue s row "backlinks")
    let m := mAppend m key "wiki_backlinks" bv
    let hv ← pyInt (← getWikiValue s row "hits")
    let m := mAppend m key "wiki_hits" hv
    let pv ← pyInt (← getWikiValue s row "ps")
    let m := mAppend m key "wiki_ps" pv
    return m
  else
    return m

/-- The sort pass: `self.metrics[i][j].sort()` for every bucket and metric. -/
def sortPass (m : Metrics) : Metrics :=
  m.map (fun p => (p.1, p.2.map (fun q => (q.1, List.insertionSort (fun a b => a ≤ b) q.2))))

/-- The percentile formula of the index pass: cap at the last element of the
sorted list (quartered for `wiki_backlinks`/`wiki_hits`); a zero cap maps
everything to 1.0, otherwise `min(v/cap, 1.0)`. -/
def pctVal (j : String) (lst : List Int) (v : Int) : ℚ :=
  let m : ℚ := ((lst.getLastD 0 : Int) : ℚ)
  let cap : ℚ := if ["wiki_backlinks", "wiki_hits"].contains j then (25 / 100) * m else m
  if cap = 0 then 1 else min ((v : ℚ) / cap) 1

/-- Index one sorted value list into an existing per-(bucket, metric) entry:
only values not already present get a percentile recorded. -/
def indexOne (j : String) (lst : List Int) (e : List (Int × ℚ)) : List (Int × ℚ) :=
  lst.foldl (fun e v => if (aget e v).isSome then e else e ++ [(v, pctVal j lst v)]) e

/-- Two-level read of the percentile index: the `(bucket, metric)` entry. -/
def iGet (idx : MetricIndex) (i : List String) (j : String) : Option (List (Int × ℚ)) :=
  aget ((aget idx i).getD []) j

/-- `metric_index.setdefault(i, {}).setdefault(j, {})` entry read. -/
def getIdx (idx : MetricIndex) (i : List String) (j : String) : List (Int × ℚ) :=
  (iGet idx i j).getD []

/-- Store a freshly indexed entry back at `(i, j)`. -/
def setIdx (idx : MetricIndex) (i : List String) (j : String) (e : List (Int × ℚ)) :
    MetricIndex :=
  aupd idx i (fun o => aupd (o.getD []) j (fun _ => e))

/-- One metric of the index pass for bucket `i`.  An empty value list performs
no iterations (and hence creates no entry), as in the source. -/
def indexMetricStep (i : List String) (idx : MetricIndex) (q : String × List Int) :
    MetricIndex :=
  if q.2.isEmpty then idx
  else setIdx idx i q.1 (indexOne q.1 q.2 (getIdx idx i q.1))

/-- One bucket of the index pass. -/
def indexBucketStep (idx : MetricIndex) (p : List String × List (String × List Int)) :
    MetricIndex :=
  p.2.foldl (indexMetricStep p.1) idx

/-- The index pass over all buckets and metrics. -/
def indexPass (m : Metrics) (idx : MetricIndex) : MetricIndex :=
  m.foldl indexBucketStep idx

/-- `"%.2f" % q`, idealized: round `100*q` to the nearest integer and render
with two decimals. -/
def fmt2 (q : ℚ) : String :=
  let n : ℤ := round (100 * q)
  let a : ℕ := n.natAbs
  (if n < 0 then "-" else "") ++ toString (a / 100) ++ "." ++
    (if a % 100 < 10 then "0" ++ toString (a % 100) else toString (a % 100))

/-- Bounds-checked assignment `columns[i] = v` (IndexError when out of range). -/
def setF (row : List String) (i : Nat) (v : String) : Except Err (List String) :=
  if i < row.length then .ok (row.set i v) else .error .idx

/-- The `score_wiki` block of the score pass: 0 when the (normalized)
backlinks string is empty, otherwise `100 * average(percentiles, weights=[5,5,1])`. -/
def scoreWikiOf (s : KBState) (row : List String) : Except Err ℚ := do
  let bl ← getWikiValue s row "backlinks"
  if bl ≠ "" then do
    let wb ← metricPercentile s row "wiki_backlinks"
    let wh ← metricPercentile s row "wiki_hits"
    let wp ← metricPercentile s row "wiki_ps"
    pure (100 * (5 * wb + 5 * wh + wp) / 11)
  else pure 0

/-- The `score_metrics` block of the score pass:
`100 * average([description_length pct, columns_number pct])`, read from the
row as it stands after the SCORE WIKI write. -/
def scoreMetricsOf (s : KBState) (row1 : List String) : Except Err ℚ := do
  let dl ← metricPercentile s row1 "description_length"
  let cn ← metricPercentile s row1 "columns_number"
  pure (100 * (dl + cn) / 2)

/-- The score pass body for one row: SCORE WIKI (weights 5,5,1), SCORE METRICS
(unweighted pair), CONFIDENCE (weights 5,1), each written back as a
two-decimal string.  The later percentile reads happen on the row with
SCORE WIKI already written, and CONFIDENCE is averaged from the *unrounded*
scores, as in the source. -/
def scoreRow (s : KBState) (row : List String) : Except Err (List String) := do
  let sw ← scoreWikiOf s row
  let c1 ← getColFor s row (some "SCORE WIKI") none
  let row1 ← setF row c1 (fmt2 sw)
  let sm ← scoreMetricsOf s row1
  let c2 ← getColFor s row1 (some "SCORE METRICS") none
  let row2 ← setF row1 c2 (fmt2 sm)
  let c3 ← getColFor s row2 (some "CONFIDENCE") none
  let row3 ← setF row2 c3 (fmt2 ((5 * sw + sm) / 6))
  return row3

/-- Outcome of one `insert_metrics()` call: metrics were computed and written,
or the engine refused with one of its two warnings. -/
inductive MetricsOutcome where
  | added : MetricsOutcome
  | allPresent : MetricsOutcome
  | missingStats : MetricsOutcome
  deriving DecidableEq, Repr

/-- `insert_metrics`: guard checks, then the collect, sort, index and score
passes, threading the instance state. -/
def insertMetrics (s : KBState) : Except Err (MetricsOutcome × KBState) := do
  let ap ← checkAllStatsPresent s
  if ap then return (.allPresent, s)
  else
    let r := checkAddKbStats s
    if r.1 = false then return (.missingStats, r.2)
    else do
      let s1 := r.2
      let ms ← s1.lines.foldlM (collectRow s1) s1.metrics
      let s2 : KBState := { s1 with metrics := sortPass ms }
      let s3 : KBState := { s2 with metricIndex := indexPass s2.metrics s2.metricIndex }
      let newLines ← s3.lines.mapM (scoreRow s3)
      return (.added, { s3 with lines := newLines })

/-- Leading-match test on character lists (the pattern is an initial segment). -/
def leadMatch : List Char → List Char → Bool
  | [], _ => true
  | _ :: _, [] => false
  | p :: ps, c :: cs => p = c && leadMatch ps cs

/-- Substring test on character lists. -/
def subMatch (pat : List Char) : List Char → Bool
  | [] => leadMatch pat []
  | c :: cs => leadMatch pat (c :: cs) || subMatch pat cs

/-- Python `pat in s` on strings. -/
def hasSub (s pat : String) : Bool := subMatch pat.toList s.toList

/-- Tab-join a list of fields. -/
def tabJoin (l : List String) : String := String.intercalate "\t" l

/-- The rewritten `__stats__` HEAD line:
`"<__stats__>" + "\t".join(headKB["__stats__"].keys())`.  A missing
`__stats__` entry raises KeyError; a `None` key raises TypeError. -/
def statsHeadLine (hkb : HeadKB) : Except Err String := do
  let blk ← fromOpt (aget hkb "__stats__") .key
  let names ← blk.mapM (fun p => fromOpt p.1 .typeErr)
  return "<__stats__>" ++ tabJoin names

/-- One HEAD line of `save_changes`: any line one of whose fields contains the
substring `<__stats__>` is replaced by the rewritten stats line. -/
def saveHeadStep (hkb : HeadKB) (acc : List String × Bool) (line : List String) :
    Except Err (List String × Bool) := do
  if line.any (fun c => hasSub c "<__stats__>") then do
    let sl ← statsHeadLine hkb
    return (acc.1 ++ [sl], true)
  else
    return (acc.1 ++ [tabJoin line], acc.2)

/-- `save_changes`, modelled as the list of output lines: optional version
line, HEAD lines (with the `__stats__` rewrite, synthesizing one if none was
seen), a blank separator, the tab-joined data rows and a trailing blank. -/
def saveChanges (s : KBState) : Except Err (List String) := do
  let hr ← s.headLines.foldlM (saveHeadStep s.headKB) ([], false)
  let headOut ←
    if hr.2 then pure hr.1
    else do
      let sl ← statsHeadLine s.headKB
      pure (hr.1 ++ [sl])
  return (if s.version ≠ "" then [s.version] else []) ++ headOut ++ [""] ++
    s.lines.map tabJoin ++ [""]

/-- Widths summed over the row's generic-augmented declared type set: the
`min_line_cols` accumulation in `getKBLines` (a type missing from the schema
raises KeyError). -/
def sumWidths (hkb : HeadKB) : List String → Except Err Nat
  | [] => .ok 0
  | t :: ts => do
      let blk ← fromOpt (aget hkb t) .key
      let rest ← sumWidths hkb ts
      return blockWidth blk + rest

/-- The generic-augmented declared type set used by the row loader (`__stats__`
is NOT appended here, unlike `get_ent_type`). -/
def loaderTypeSet (hkb : HeadKB) (tf : String) : List String :=
  let ts := odedup (tf.splitOn "+")
  if (aget hkb "__generic__").isSome && !(ts.contains "__generic__")
  then "__generic__" :: ts else ts

/-- The data-row padding step of `getKBLines`: append
`['' for _ in range(min_line_cols - line_cols + len(all_stats))]`
(an empty range when the row is already long enough). -/
def padRow (hkb : HeadKB) (entCol : Option Nat) (fields : List String) :
    Except Err (List String) := do
  let c ← fromOpt entCol .typeErr
  let tf ← getF fields c
  let minCols ← sumWidths hkb (loaderTypeSet hkb tf)
  return fields ++ List.replicate (minCols + allStats.length - fields.length) ""

/-! ### Concrete knowledge bases used by witnesses and counterexamples -/

/-- A `__generic__` block with NAME, TYPE and DESCRIPTION. -/
def genBlk : Block := [(some "NAME", 0), (some "TYPE", 1), (some "DESCRIPTION", 2)]

/-- A `__stats__` block with the three input statistics. -/
def statsBlk : Block :=
  [(some "WIKI BACKLINKS", 0), (some "WIKI HITS", 1), (some "WIKI PRIMARY SENSE", 2)]

/-- Schema with a generic and a stats block. -/
def hkbC : HeadKB := [("__generic__", genBlk), ("__stats__", statsBlk)]

/-- HEAD lines matching `hkbC`. -/
def headLinesC : List (List String) :=
  [["<__generic__>NAME", "TYPE", "DESCRIPTION"],
   ["<__stats__>WIKI BACKLINKS", "WIKI HITS", "WIKI PRIMARY SENSE"]]

/-- A data row whose WIKI BACKLINKS field is empty. -/
def rowEmptyBL : List String := ["e", "__generic__", "x", "", "", "", "", "", ""]

/-- KB with a single row that has no backlinks value. -/
def cs2 : KBState := initState hkbC (some 1) headLinesC "VERSION=1" [rowEmptyBL]

/-- Row R of the CONFIDENCE-rounding example: backlinks 4, hits 4, ps 15,
description of length 1. -/
def rowR : List String := ["r", "__generic__", "a", "4", "4", "15", "", "", ""]

/-- Row S of the CONFIDENCE-rounding example: backlinks 4, hits 4, ps 1000,
description of length 11. -/
def rowS : List String := ["s", "__generic__", "abcdefghijk", "4", "4", "1000", "", "", ""]

/-- KB with two rows engineered so that rounding the scores before the
confidence average crosses a hundredth boundary. -/
def cs3 : KBState := initState hkbC (some 1) headLinesC "VERSION=1" [rowR, rowS]

/-- The data rows after `insert_metrics` on a state (empty on failure). -/
def linesAfter (s : KBState) : List (List String) :=
  match insertMetrics s with
  | .ok p => p.2.lines
  | .error _ => []

/-- The metrics dictionary after `insert_metrics` on a state. -/
def metricsAfter (s : KBState) : Metrics :=
  match insertMetrics s with
  | .ok p => p.2.metrics
  | .error _ => []

/-- Field `c` of row `r` of a line list. -/
def fieldAt (ls : List (List String)) (r c : Nat) : Option String :=
  ls[r]?.bind (fun row => row[c]?)

/-! ### General lemmas about the embedding's plumbing -/

theorem fromOpt_eq_ok {α : Type} {o : Option α} {e : Err} {a : α} :
    fromOpt o e = .ok a ↔ o = some a := by
  cases o <;> simp [fromOpt]

theorem exBind_eq_ok {α β : Type} {e : Except Err α} {f : α → Except Err β} {b : β} :
    (e >>= f) = .ok b ↔ ∃ a, e = .ok a ∧ f a = .ok b := by
  cases e <;> simp [Bind.bind, Except.bind]

theorem isOk_bind {α β : Type} (e : Except Err α) (f : α → Except Err β) :
    exceptIsOk (e >>= f) = match e with
      | .ok a => exceptIsOk (f a)
      | .error _ => false := by
  cases e <;> rfl

theorem aget_aupd {K V : Type} [DecidableEq K] (m : List (K × V)) (k : K)
    (f : Option V → V) (k' : K) :
    aget (aupd m k f) k' = if k' = k then some (f (aget m k)) else aget m k' := by
  induction m with
  | nil =>
      by_cases h : k' = k <;> simp [aupd, aget, h]
  | cons p r ih =>
      obtain ⟨k0, v0⟩ := p
      by_cases hk : k = k0
      · subst hk
        by_cases h : k' = k <;> simp [aupd, aget, h]
      · by_cases h : k' = k0
        · subst h
          simp [aupd, aget, hk, Ne.symm hk, ih]
        · simp [aupd, aget, hk, h, ih]

theorem aget_aset {K V : Type} [DecidableEq K] (m : List (K × V)) (k : K) (v : V) (k' : K) :
    aget (aset m k v) k' = if k' = k then some v else aget m k' := by
  simp [aset, aget_aupd]

theorem aget_append_one {K V : Type} [DecidableEq K] (b : List (K × V)) (k : K) (v : V)
    (k' : K) :
    aget (b ++ [(k, v)]) k' =
      match aget b k' with
      | some w => some w
      | none => if k' = k then some v else none := by
  induction b with
  | nil => by_cases h : k' = k <;> simp [aget, h]
  | cons p r ih =>
      by_cases h : k' = p.1
      · simp [aget, h]
      · simp [aget, h, ih]

/-! ### C10: `metric_percentile` before `insert_metrics` -/

/-- C10: for every row and metric name, `metric_percentile` on a freshly
constructed `KnowledgeBase` (whose `metric_index` is the empty dictionary, as
set by `__init__`) fails with an error rather than returning a value: the
final `metric_index[key][metric][value]` lookup cannot succeed on an empty
index, and every earlier step can only fail. -/
theorem C10_metric_percentile_fails_before_insert (hkb : HeadKB) (ec : Option Nat)
    (hl : List (List String)) (ver : String) (ls : List (List String))
    (row : List String) (metric : String) :
    exceptIsOk (metricPercentile (initState hkb ec hl ver ls) row metric) = false := by
  unfold metricPercentile
  rw [isOk_bind]
  cases hk : indexKeyOf (initState hkb ec hl ver ls) row with
  | error e => simp
  | ok key =>
      simp only
      rw [isOk_bind]
      cases hv : metricValue (initState hkb ec hl ver ls) row metric with
      | error e => simp
      | ok v => simp [fromOpt, aget3, initState, aget, exceptIsOk]

/-! ### C7: the `col_name_type` hint of `get_col_for` -/

/-- C7 counterexample: with the schema `hkbC`, the `__stats__` block does not
define `DESCRIPTION`, yet `get_col_for(row, "DESCRIPTION", "__stats__")`
succeeds (resolving it in the `__generic__` block at column 2) instead of
failing immediately as the claim asserts. -/
theorem C7_counterexample :
    aget statsBlk (some "DESCRIPTION") = none ∧
    getColFor cs2 rowEmptyBL (some "DESCRIPTION") (some "__stats__") = .ok 2 := by
  constructor
  · rfl
  · with_unfolding_all rfl

/-- C7 amended: the optional `col_name_type` argument of `get_col_for` is
accepted but never read — the resolver always walks the row's full type set,
so a call with any hint behaves exactly like a call with no hint. -/
theorem C7_amended_hint_ignored (s : KBState) (row : List String)
    (colName : Option String) (hint hint' : Option String) :
    getColFor s row colName hint = getColFor s row colName hint' := rfl

/-! ### C6: the row loader's padding -/

/-- Schema used by the C6 counterexample: one generic block of width 1. -/
def hkbC6 : HeadKB := [("__generic__", [(some "TYPE", 0)])]

/-- C6 counterexample: for a row with 3 fields whose generic-augmented type
set has total width 1, the loader appends `max(0, 1 - 3 + 6) = 4` empty
fields, not the claimed `max(0, 1 - 3) + 6 = 6`. -/
theorem C6_counterexample :
    sumWidths hkbC6 (loaderTypeSet hkbC6 "__generic__") = .ok 1 ∧
    padRow hkbC6 (some 0) ["__generic__", "a", "b"] =
      .ok ["__generic__", "a", "b", "", "", "", ""] ∧
    ["__generic__", "a", "b", "", "", "", ""].length = 3 + 4 ∧
    max 0 ((1 : ℤ) - 3) + 6 ≠ 4 := by
  refine ⟨by with_unfolding_all rfl, by with_unfolding_all rfl, by rfl, by decide⟩

/-- C6 amended: the loader right-pads each data row with exactly
`max(0, minimum_expected + 6 - actual_count)` empty strings (the reserved
width for the six statistic/metric columns is inside the truncation, not
added after it): whenever `padRow` succeeds, the output is the input row
followed by that many `""` fields, so the padded length is
`max(actual_count, minimum_expected + 6)`. -/
theorem C6_amended_padding (hkb : HeadKB) (ec : Option Nat) (fields out : List String)
    (h : padRow hkb ec fields = .ok out) :
    ∃ c tf minCols, ec = some c ∧ getF fields c = .ok tf ∧
      sumWidths hkb (loaderTypeSet hkb tf) = .ok minCols ∧
      out = fields ++ List.replicate (minCols + 6 - fields.length) "" ∧
      (out.length : ℤ) = max (fields.length : ℤ) ((minCols : ℤ) + 6) := by
  unfold padRow at h
  rw [exBind_eq_ok] at h
  obtain ⟨c, hc, h⟩ := h
  rw [exBind_eq_ok] at h
  obtain ⟨tf, htf, h⟩ := h
  rw [exBind_eq_ok] at h
  obtain ⟨minCols, hmin, h⟩ := h
  simp only [pure, Except.pure, Except.ok.injEq] at h
  refine ⟨c, tf, minCols, fromOpt_eq_ok.mp hc, htf, hmin, ?_, ?_⟩
  · rw [← h]; rfl
  · rw [← h]
    simp only [List.length_append, List.length_replicate]
    have h6 : allStats.length = 6 := rfl
    rw [h6]
    omega

/-- C6 witness: a one-field row under `hkbC6` is padded to width
`max(1, 1 + 6) = 7`. -/
theorem C6_witness :
    padRow hkbC6 (some 0) ["__generic__"] = .ok ["__generic__", "", "", "", "", "", ""] ∧
    ((["__generic__", "", "", "", "", "", ""].length : ℤ) = max 1 (1 + 6)) := by
  have h : padRow hkbC6 (some 0) ["__generic__"] =
      .ok ["__generic__", "", "", "", "", "", ""] := by with_unfolding_all rfl
  obtain ⟨c, tf, minCols, hc, htf, hmin, hout, hlen⟩ :=
    C6_amended_padding hkbC6 (some 0) ["__generic__"] ["__generic__", "", "", "", "", "", ""] h
  refine ⟨h, ?_⟩
  obtain rfl : (0 : Nat) = c := by injection hc
  obtain rfl : "__generic__" = tf := by
    have h1 : getF ["__generic__"] 0 = .ok "__generic__" := rfl
    rw [h1] at htf
    injection htf
  obtain rfl : (1 : Nat) = minCols := by
    have h1 : sumWidths hkbC6 (loaderTypeSet hkbC6 "__generic__") = .ok 1 := by
      with_unfolding_all rfl
    rw [h1] at hmin
    injection hmin
  simp at hlen
  simp [hlen]

/-! ### C4: order-independence of the statistics bucket key -/

theorem contains_eq_of_perm {l1 l2 : List String} (h : l1.Perm l2) (x : String) :
    l1.contains x = l2.contains x := by
  rw [Bool.eq_iff_iff]
  simp only [List.contains, List.elem_iff]
  exact h.mem_iff

theorem perm_ite_cons (c : Bool) {l1 l2 : List String} (h : l1.Perm l2) (x : String) :
    (if c then x :: l1 else l1).Perm (if c then x :: l2 else l2) := by
  cases c
  · simpa using h
  · simpa using h.cons x

theorem perm_ite_append (c : Bool) {l1 l2 : List String} (h : l1.Perm l2) (x : String) :
    (if c then l1 ++ [x] else l1).Perm (if c then l2 ++ [x] else l2) := by
  cases c
  · simpa using h
  · simpa using h.append_right [x]

theorem entAug_perm (hkb : HeadKB) {l1 l2 : List String} (h : l1.Perm l2) :
    (entAug hkb l1).Perm (entAug hkb l2) := by
  unfold entAug
  dsimp only
  rw [contains_eq_of_perm h "__generic__"]
  have h1 := perm_ite_cons ((aget hkb "__generic__").isSome && !(l2.contains "__generic__"))
    h "__generic__"
  rw [contains_eq_of_perm h1 "__stats__"]
  exact perm_ite_append _ h1 "__stats__"

theorem canonKey_perm {l1 l2 : List String} (h : l1.Perm l2) : canonKey l1 = canonKey l2 := by
  unfold canonKey
  exact List.eq_of_perm_of_sorted
    ((List.perm_insertionSort _ l1).trans (h.trans (List.perm_insertionSort _ l2).symm))
    (List.sorted_insertionSort _ l1) (List.sorted_insertionSort _ l2)

/-- C4: two rows whose declared TYPE tags are permutations of the same tag set
receive the same statistics bucket key from `indexKeyOf` — the key
`repr(set(get_ent_type(line)))` that both the collect pass of
`insert_metrics` (its `ent_type_set_index`) and `metric_percentile` compute. -/
theorem C4_bucket_key_order_independent (s : KBState) (r1 r2 : List String)
    (t1 t2 : String) (h1 : getTypeField s r1 = .ok t1) (h2 : getTypeField s r2 = .ok t2)
    (hperm : (odedup (t1.splitOn "+")).Perm (odedup (t2.splitOn "+"))) :
    indexKeyOf s r1 = indexKeyOf s r2 := by
  have e1 : getEntType s r1 = .ok (entAug s.headKB (odedup (t1.splitOn "+"))) := by
    unfold getEntType
    rw [exBind_eq_ok]
    exact ⟨t1, h1, rfl⟩
  have e2 : getEntType s r2 = .ok (entAug s.headKB (odedup (t2.splitOn "+"))) := by
    unfold getEntType
    rw [exBind_eq_ok]
    exact ⟨t2, h2, rfl⟩
  unfold indexKeyOf
  rw [e1, e2]
  simp only [Bind.bind, Except.bind]
  rw [canonKey_perm (entAug_perm s.headKB hperm)]

/-- A row declaring `PERSON+ARTIST`. -/
def rowPA : List String := ["x", "PERSON+ARTIST"]

/-- A row declaring `ARTIST+PERSON`. -/
def rowAP : List String := ["y", "ARTIST+PERSON"]

/-- C4 witness: under `cs2`, the rows declaring `PERSON+ARTIST` and
`ARTIST+PERSON` get the same bucket key. -/
theorem C4_witness :
    getTypeField cs2 rowPA = .ok "PERSON+ARTIST" ∧
    getTypeField cs2 rowAP = .ok "ARTIST+PERSON" ∧
    indexKeyOf cs2 rowPA = indexKeyOf cs2 rowAP := by
  have h1 : getTypeField cs2 rowPA = .ok "PERSON+ARTIST" := by with_unfolding_all rfl
  have h2 : getTypeField cs2 rowAP = .ok "ARTIST+PERSON" := by with_unfolding_all rfl
  refine ⟨h1, h2, C4_bucket_key_order_independent cs2 rowPA rowAP _ _ h1 h2 ?_⟩
  have e1 : odedup ("PERSON+ARTIST".splitOn "+") = ["PERSON", "ARTIST"] := by
    with_unfolding_all rfl
  have e2 : odedup ("ARTIST+PERSON".splitOn "+") = ["ARTIST", "PERSON"] := by
    with_unfolding_all rfl
  rw [e1, e2]
  decide

/-! ### C2: the WIKI BACKLINKS gate of the collect and score passes -/

/-- Two-level read of the metrics dictionary:
`self.metrics.get(key, {}).get(j)`. -/
def mGet (m : Metrics) (key : List String) (j : String) : Option (List Int) :=
  aget ((aget m key).getD []) j

theorem mGet_mAppend (m : Metrics) (key : List String) (j : String) (v : Int)
    (key' : List String) (j' : String) :
    mGet (mAppend m key j v) key' j' =
      if key' = key ∧ j' = j then some ((mGet m key j).getD [] ++ [v])
      else mGet m key' j' := by
  unfold mGet mAppend
  rw [aget_aupd]
  by_cases hk : key' = key
  · simp only [hk, if_true, Option.getD_some]
    rw [aget_aupd]
    by_cases hj : j' = j
    · simp [hj]
    · simp [hj]
  · simp [hk]

theorem mGet_mAppend_other (m : Metrics) (key : List String) (j : String) (v : Int)
    (key' : List String) (j' : String) (h : ¬(key' = key ∧ j' = j)) :
    mGet (mAppend m key j v) key' j' = mGet m key' j' := by
  rw [mGet_mAppend, if_neg h]

theorem mGet_mAppend_here (m : Metrics) (key : List String) (j : String) (v : Int) :
    mGet (mAppend m key j v) key j = some ((mGet m key j).getD [] ++ [v]) := by
  rw [mGet_mAppend, if_pos ⟨rfl, rfl⟩]

theorem getDataFor_ok_ne_empty {s : KBState} {row : List String}
    {colName colNameType : Option String} {v : String}
    (h : getDataFor s row colName colNameType = .ok v) : v ≠ "" := by
  unfold getDataFor at h
  rw [exBind_eq_ok] at h
  obtain ⟨c, hc, h⟩ := h
  rw [exBind_eq_ok] at h
  obtain ⟨v0, hv0, h⟩ := h
  simp only [pure, Except.pure, Except.ok.injEq] at h
  subst h
  by_cases he : v0 = "" ∨ v0 = "NF"
  · simp [he]
  · simp only [he, if_false]
    intro hv
    exact he (Or.inl hv)

theorem getWikiValue_ok_ne_empty {s : KBState} {row : List String} {cn v : String}
    (h : getWikiValue s row cn = .ok v) : v ≠ "" := by
  unfold getWikiValue at h
  split at h
  · exact getDataFor_ok_ne_empty h
  · split at h
    · exact getDataFor_ok_ne_empty h
    · split at h
      · exact getDataFor_ok_ne_empty h
      · split at h
        · exact getDataFor_ok_ne_empty h
        · exact getDataFor_ok_ne_empty h

/-- C2 counterexample: in `cs2` the single row's WIKI BACKLINKS field (absolute
column 3) is the empty string, yet after `insert_metrics` the bucket's
`wiki_backlinks` observation list is `[0]` — the observation WAS appended —
and the row's SCORE WIKI (absolute column 6) is written as `"100.00"`, not 0:
with an all-empty bucket the caps are 0 and every percentile saturates to 1. -/
theorem C2_counterexample :
    getF rowEmptyBL 3 = .ok "" ∧
    getColFor cs2 rowEmptyBL (some "WIKI BACKLINKS") none = .ok 3 ∧
    metricsAfter cs2 = [(["__generic__", "__stats__"],
      [("columns_number", [3]), ("description_length", [1]), ("wiki_backlinks", [0]),
       ("wiki_hits", [0]), ("wiki_ps", [0])])] ∧
    fieldAt (linesAfter cs2) 0 6 = some "100.00" ∧
    ("100.00" : String) ≠ "0.00" := by
  refine ⟨by rfl, by with_unfolding_all rfl, by with_unfolding_all rfl,
    by with_unfolding_all rfl, by decide⟩

/-- C2 amended: the backlinks gate can never fail, because `get_data_for`
normalizes an empty or `NF` field to the non-empty string `"0"`.  Hence
(i) any `.ok` value of the gate expression is non-empty, (ii) the collect
pass appends an observation to each of the three wiki lists for **every**
row it processes, and (iii) the score pass always computes the three wiki
percentiles (the `score_wiki = 0` branch is dead), so SCORE WIKI is always
`100 × weighted_average` of them with weights `[5, 5, 1]`. -/
theorem C2_amended_wiki_gate_always_passes :
    (∀ (s : KBState) (row : List String) (v : String),
        getWikiValue s row "backlinks" = .ok v → v ≠ "") ∧
    (∀ (s : KBState) (m : Metrics) (row : List String) (m' : Metrics),
        collectRow s m row = .ok m' →
        ∃ key bv hv pv, indexKeyOf s row = .ok key ∧
          mGet m' key "wiki_backlinks" =
            some ((mGet m key "wiki_backlinks").getD [] ++ [bv]) ∧
          mGet m' key "wiki_hits" = some ((mGet m key "wiki_hits").getD [] ++ [hv]) ∧
          mGet m' key "wiki_ps" = some ((mGet m key "wiki_ps").getD [] ++ [pv])) ∧
    (∀ (s : KBState) (row r : List String),
        scoreRow s row = .ok r →
        ∃ wb wh wp : ℚ, metricPercentile s row "wiki_backlinks" = .ok wb ∧
          metricPercentile s row "wiki_hits" = .ok wh ∧
          metricPercentile s row "wiki_ps" = .ok wp) := by
  refine ⟨fun s row v h => getWikiValue_ok_ne_empty h, ?_, ?_⟩
  · intro s m row m' h
    unfold collectRow at h
    rw [exBind_eq_ok] at h
    obtain ⟨key, hkey, h⟩ := h
    rw [exBind_eq_ok] at h
    obtain ⟨cn, hcn, h⟩ := h
    rw [exBind_eq_ok] at h
    obtain ⟨dl, hdl, h⟩ := h
    rw [exBind_eq_ok] at h
    obtain ⟨bl, hbl, h⟩ := h
    rw [if_pos (getWikiValue_ok_ne_empty hbl)] at h
    rw [exBind_eq_ok] at h
    obtain ⟨bl2, hbl2, h⟩ := h
    rw [exBind_eq_ok] at h
    obtain ⟨bv, hbv, h⟩ := h
    rw [exBind_eq_ok] at h
    obtain ⟨h2, hh2, h⟩ := h
    rw [exBind_eq_ok] at h
    obtain ⟨hv, hhv, h⟩ := h
    rw [exBind_eq_ok] at h
    obtain ⟨p2, hp2, h⟩ := h
    rw [exBind_eq_ok] at h
    obtain ⟨pv, hpv, h⟩ := h
    simp only [pure, Except.pure, Except.ok.injEq] at h
    subst h
    refine ⟨key, bv, hv, pv, hkey, ?_, ?_, ?_⟩
    · rw [mGet_mAppend_other _ _ _ _ _ _ (by simp), mGet_mAppend_other _ _ _ _ _ _ (by simp),
        mGet_mAppend_here, mGet_mAppend_other _ _ _ _ _ _ (by simp),
        mGet_mAppend_other _ _ _ _ _ _ (by simp)]
    · rw [mGet_mAppend_other _ _ _ _ _ _ (by simp), mGet_mAppend_here,
        mGet_mAppend_other _ _ _ _ _ _ (by simp), mGet_mAppend_other _ _ _ _ _ _ (by simp),
        mGet_mAppend_other _ _ _ _ _ _ (by simp)]
    · rw [mGet_mAppend_here, mGet_mAppend_other _ _ _ _ _ _ (by simp),
        mGet_mAppend_other _ _ _ _ _ _ (by simp), mGet_mAppend_other _ _ _ _ _ _ (by simp),
        mGet_mAppend_other _ _ _ _ _ _ (by simp)]
  · intro s row r h
    unfold scoreRow at h
    rw [exBind_eq_ok] at h
    obtain ⟨sw, hsw, h⟩ := h
    unfold scoreWikiOf at hsw
    rw [exBind_eq_ok] at hsw
    obtain ⟨bl, hbl, hsw⟩ := hsw
    rw [if_pos (getWikiValue_ok_ne_empty hbl)] at hsw
    rw [exBind_eq_ok] at hsw
    obtain ⟨wb, hwb, hsw⟩ := hsw
    rw [exBind_eq_ok] at hsw
    obtain ⟨wh, hwh, hsw⟩ := hsw
    rw [exBind_eq_ok] at hsw
    obtain ⟨wp, hwp, hsw⟩ := hsw
    exact ⟨wb, wh, wp, hwb, hwh, hwp⟩

/-- The metrics dictionary built by one collect-pass step on `cs2`'s row. -/
def cm2 : Metrics :=
  match collectRow cs2 [] rowEmptyBL with
  | .ok m => m
  | .error _ => []

/-- C2 witness: applying the amended theorem at `cs2`'s empty-backlinks row:
the gate value reads `"0"` (non-empty), and the collect step extended the
bucket's `wiki_backlinks` list to `[0]`. -/
theorem C2_witness :
    ("0" : String) ≠ "" ∧
    mGet cm2 ["__generic__", "__stats__"] "wiki_backlinks" = some [0] := by
  refine ⟨C2_amended_wiki_gate_always_passes.1 cs2 rowEmptyBL "0"
    (by with_unfolding_all rfl), ?_⟩
  obtain ⟨key, bv, hv, pv, hkey, hb, hh, hp⟩ :=
    C2_amended_wiki_gate_always_passes.2.1 cs2 [] rowEmptyBL cm2 (by with_unfolding_all rfl)
  have hkeyc : indexKeyOf cs2 rowEmptyBL = .ok ["__generic__", "__stats__"] := by
    with_unfolding_all rfl
  rw [hkeyc] at hkey
  injection hkey with hkey'
  subst hkey'
  have hnil : mGet ([] : Metrics) ["__generic__", "__stats__"] "wiki_backlinks" = none := rfl
  rw [hnil] at hb
  have hbvc : mGet cm2 ["__generic__", "__stats__"] "wiki_backlinks" = some [0] := by
    with_unfolding_all rfl
  exact hbvc

/-! ### C3: CONFIDENCE versus the written two-decimal scores -/

theorem setF_eq_ok {row : List String} {i : Nat} {v : String} {r : List String} :
    setF row i v = .ok r ↔ i < row.length ∧ r = row.set i v := by
  unfold setF
  by_cases h : i < row.length
  · simp [h, eq_comm]
  · simp [h]

theorem getTypeField_set_ne {s : KBState} {row : List String} {i : Nat} {v : String}
    {c : Nat} (hc : s.entTypeCol = some c) (hne : c ≠ i) :
    getTypeField s (row.set i v) = getTypeField s row := by
  unfold getTypeField
  rw [hc]
  simp only [fromOpt, Bind.bind, Except.bind]
  unfold getF
  rw [List.getElem?_set_ne (Ne.symm hne)]

theorem getEntType_congr {s : KBState} {row row' : List String}
    (h : getTypeField s row = getTypeField s row') :
    getEntType s row = getEntType s row' := by
  unfold getEntType
  rw [h]

theorem getColFor_congr {s : KBState} {row row' : List String}
    (h : getTypeField s row = getTypeField s row') (colName colNameType : Option String) :
    getColFor s row colName colNameType = getColFor s row' colName colNameType := by
  unfold getColFor
  rw [getEntType_congr h]

/-- C3 counterexample: in `cs3`, the first row is written SCORE WIKI `"91.05"`,
SCORE METRICS `"54.55"`, CONFIDENCE `"84.96"`; but rounding
`(5 × 91.05 + 54.55) / 6` — the formula applied to the two-decimal values that
were written into the row — gives `"84.97"`.  CONFIDENCE is computed from the
unrounded scores, not from the written two-decimal values. -/
theorem C3_counterexample :
    fieldAt (linesAfter cs3) 0 6 = some "91.05" ∧
    fieldAt (linesAfter cs3) 0 7 = some "54.55" ∧
    fieldAt (linesAfter cs3) 0 8 = some "84.96" ∧
    fmt2 (9105 / 100 : ℚ) = "91.05" ∧
    fmt2 (5455 / 100 : ℚ) = "54.55" ∧
    fmt2 ((5 * (9105 / 100 : ℚ) + 5455 / 100) / 6) = "84.97" ∧
    ("84.96" : String) ≠ "84.97" := by
  refine ⟨by with_unfolding_all rfl, by with_unfolding_all rfl, by with_unfolding_all rfl,
    by with_unfolding_all rfl, by with_unfolding_all rfl, by with_unfolding_all rfl, by decide⟩

/-- C3 amended: for every row the score pass writes `fmt2 sw` into SCORE WIKI,
`fmt2 sm` into SCORE METRICS and `fmt2 ((5*sw + sm)/6)` into CONFIDENCE where
`sw` and `sm` are the *unrounded* rational scores (`scoreWikiOf` on the
original row, `scoreMetricsOf` on the row with SCORE WIKI already written) —
i.e. CONFIDENCE is the two-decimal rounding of the weighted average of the
exact scores, not of the two-decimal values stored in the row. -/
theorem C3_amended_confidence_from_unrounded (s : KBState) (row r : List String)
    (i1 i2 i3 c : Nat) (swv smv : ℚ)
    (h : scoreRow s row = .ok r)
    (h1 : getColFor s row (some "SCORE WIKI") none = .ok i1)
    (h2 : getColFor s row (some "SCORE METRICS") none = .ok i2)
    (h3 : getColFor s row (some "CONFIDENCE") none = .ok i3)
    (hc : s.entTypeCol = some c) (hci1 : c ≠ i1) (hci2 : c ≠ i2)
    (h12 : i1 ≠ i2) (h13 : i1 ≠ i3) (h23 : i2 ≠ i3)
    (hsw : scoreWikiOf s row = .ok swv)
    (hsm : scoreMetricsOf s (row.set i1 (fmt2 swv)) = .ok smv) :
    r[i1]? = some (fmt2 swv) ∧ r[i2]? = some (fmt2 smv) ∧
      r[i3]? = some (fmt2 ((5 * swv + smv) / 6)) := by
  unfold scoreRow at h
  rw [exBind_eq_ok] at h
  obtain ⟨sw, hsw', h⟩ := h
  rw [hsw] at hsw'
  injection hsw' with heqw
  rw [← heqw] at h
  rw [exBind_eq_ok] at h
  obtain ⟨c1, hc1, h⟩ := h
  rw [h1] at hc1
  injection hc1 with hc1
  rw [← hc1] at h
  rw [exBind_eq_ok] at h
  obtain ⟨row1, hrow1, h⟩ := h
  rw [setF_eq_ok] at hrow1
  obtain ⟨hb1, hrow1⟩ := hrow1
  subst hrow1
  have htf1 : getTypeField s (row.set i1 (fmt2 swv)) = getTypeField s row :=
    getTypeField_set_ne hc hci1
  rw [exBind_eq_ok] at h
  obtain ⟨sm, hsm', h⟩ := h
  rw [hsm] at hsm'
  injection hsm' with heqm
  rw [← heqm] at h
  rw [exBind_eq_ok] at h
  obtain ⟨c2, hc2, h⟩ := h
  rw [getColFor_congr htf1, h2] at hc2
  injection hc2 with hc2
  rw [← hc2] at h
  rw [exBind_eq_ok] at h
  obtain ⟨row2, hrow2, h⟩ := h
  rw [setF_eq_ok] at hrow2
  obtain ⟨hb2, hrow2⟩ := hrow2
  subst hrow2
  have htf2 : getTypeField s ((row.set i1 (fmt2 swv)).set i2 (fmt2 smv)) =
      getTypeField s row := by
    rw [getTypeField_set_ne hc hci2, htf1]
  rw [exBind_eq_ok] at h
  obtain ⟨c3, hc3, h⟩ := h
  rw [getColFor_congr htf2, h3] at hc3
  injection hc3 with hc3
  rw [← hc3] at h
  rw [exBind_eq_ok] at h
  obtain ⟨row3, hrow3, h⟩ := h
  rw [setF_eq_ok] at hrow3
  obtain ⟨hb3, hrow3⟩ := hrow3
  subst hrow3
  simp only [pure, Except.pure, Except.ok.injEq] at h
  subst h
  simp only [List.length_set] at hb2 hb3
  refine ⟨?_, ?_, ?_⟩
  · rw [List.getElem?_set_ne (Ne.symm h13), List.getElem?_set_ne (Ne.symm h12),
      List.getElem?_set_self hb1]
  · rw [List.getElem?_set_ne (Ne.symm h23), List.getElem?_set_self]
    simpa using hb2
  · rw [List.getElem?_set_self]
    simpa using hb3

/-- The state of `cs3` after `insert_metrics` (its percentile index is
populated and the schema carries the three metric columns). -/
def cs3After : KBState :=
  match insertMetrics cs3 with
  | .ok p => p.2
  | .error _ => cs3

/-- C3 witness: applying the amended theorem to row R of `cs3` under the
populated index: the exact scores are `2003/22 = 91.0454…` and
`600/11 = 54.5454…`, written `"91.05"` and `"54.55"`, and CONFIDENCE is
`fmt2((5·(2003/22) + 600/11)/6) = "84.96"`. -/
theorem C3_witness :
    scoreRow cs3After rowR =
      .ok ["r", "__generic__", "a", "4", "4", "15", "91.05", "54.55", "84.96"] ∧
    (["r", "__generic__", "a", "4", "4", "15", "91.05", "54.55", "84.96"] :
        List String)[8]? = some (fmt2 ((5 * (2003 / 22 : ℚ) + 600 / 11) / 6)) := by
  have h : scoreRow cs3After rowR =
      .ok ["r", "__generic__", "a", "4", "4", "15", "91.05", "54.55", "84.96"] := by
    with_unfolding_all rfl
  refine ⟨h, ?_⟩
  have := C3_amended_confidence_from_unrounded cs3After rowR
    ["r", "__generic__", "a", "4", "4", "15", "91.05", "54.55", "84.96"]
    6 7 8 1 (2003 / 22) (600 / 11) h
    (by with_unfolding_all rfl) (by with_unfolding_all rfl) (by with_unfolding_all rfl)
    (by with_unfolding_all rfl) (by decide) (by decide) (by decide) (by decide) (by decide)
    (by with_unfolding_all rfl) (by with_unfolding_all rfl)
  exact this.2.2

/-! ### C5: calling `insert_metrics` twice -/

theorem addMetricStep_stats {h : HeadKB} {blk : Block}
    (hb : aget h "__stats__" = some blk) (mname : String) :
    ∃ blk', aget (addMetricStep h mname) "__stats__" = some blk' ∧
      (∀ k, (aget blk k).isSome → (aget blk' k).isSome) ∧
      (aget blk' (some mname)).isSome := by
  unfold addMetricStep
  rw [hb]
  simp only [Option.getD_some]
  by_cases hp : (aget blk (some mname)).isSome
  · rw [if_pos hp]
    exact ⟨blk, hb, fun k hk => hk, hp⟩
  · rw [if_neg hp]
    refine ⟨blk ++ [(some mname, blk.length)], ?_, ?_, ?_⟩
    · rw [aget_aset]
      simp
    · intro k hk
      rw [aget_append_one]
      cases hag : aget blk k with
      | some w => simp
      | none => rw [hag] at hk; simp at hk
    · rw [aget_append_one]
      cases hag : aget blk (some mname) with
      | some w => simp
      | none => simp

theorem checkAddKbStats_true_all_present {s : KBState} {s1 : KBState}
    (h : checkAddKbStats s = (true, s1)) :
    ∃ blk', aget s1.headKB "__stats__" = some blk' ∧
      (∀ n ∈ allStats, (aget blk' (some n)).isSome) := by
  unfold checkAddKbStats at h
  split at h
  · simp at h
  next blk hag =>
    split at h
    next hall =>
      have hs1 : ({ s with headKB := metricsNames.foldl addMetricStep s.headKB } :
          KBState) = s1 := congrArg Prod.snd h
      have hstats : ∀ n ∈ statsNames, (aget blk (some n)).isSome := by
        intro n hn
        exact List.all_eq_true.mp hall n hn
      -- walk the three-step fold over metricsNames
      have hfold : metricsNames.foldl addMetricStep s.headKB =
          addMetricStep (addMetricStep (addMetricStep s.headKB
            "SCORE WIKI") "SCORE METRICS") "CONFIDENCE" := rfl
      obtain ⟨b1, hb1, hmono1, hm1⟩ := addMetricStep_stats hag "SCORE WIKI"
      obtain ⟨b2, hb2, hmono2, hm2⟩ := addMetricStep_stats hb1 "SCORE METRICS"
      obtain ⟨b3, hb3, hmono3, hm3⟩ := addMetricStep_stats hb2 "CONFIDENCE"
      refine ⟨b3, ?_, ?_⟩
      · rw [← hs1]
        simp only
        rw [hfold]
        exact hb3
      · intro n hn
        simp only [allStats, statsNames, metricsNames] at hn
        simp only [List.mem_append, List.mem_cons, List.mem_singleton] at hn
        rcases hn with ((rfl | rfl | rfl | h') | (rfl | rfl | rfl | h'))
        · exact hmono3 _ (hmono2 _ (hmono1 _ (hstats _ (by simp [statsNames]))))
        · exact hmono3 _ (hmono2 _ (hmono1 _ (hstats _ (by simp [statsNames]))))
        · exact hmono3 _ (hmono2 _ (hmono1 _ (hstats _ (by simp [statsNames]))))
        · cases h'
        · exact hmono3 _ (hmono2 _ hm1)
        · exact hmono3 _ hm2
        · exact hm3
        · cases h'
    next hall => simp at h

/-- C5: after a first `insert_metrics()` call that actually computed and wrote
metrics (outcome `.added`), a second call is a no-op: it takes the
`check_all_stats_present` early exit (the "NO METRICS ADDED" warning, outcome
`.allPresent`), returns the state unchanged, and therefore a subsequent
`save_changes` serialization is identical to the one after the first call. -/
theorem C5_insert_metrics_idempotent (s s' : KBState)
    (h : insertMetrics s = .ok (.added, s')) :
    insertMetrics s' = .ok (.allPresent, s') ∧
    (insertMetrics s').map (fun p => saveChanges p.2) = .ok (saveChanges s') := by
  -- dissect the first call
  unfold insertMetrics at h
  rw [exBind_eq_ok] at h
  obtain ⟨ap, hap, h⟩ := h
  cases ap with
  | true => simp [pure, Except.pure] at h
  | false =>
      rw [if_neg (by simp)] at h
      by_cases hb : (checkAddKbStats s).1 = false
      · rw [if_pos hb] at h
        simp [pure, Except.pure] at h
      · rw [if_neg hb] at h
        rw [exBind_eq_ok] at h
        obtain ⟨ms, hms, h⟩ := h
        rw [exBind_eq_ok] at h
        obtain ⟨newLines, hnl, h⟩ := h
        simp only [pure, Except.pure, Except.ok.injEq, Prod.mk.injEq] at h
        obtain ⟨-, hs'⟩ := h
        -- the final state keeps the schema produced by check_add_kb_stats
        have h1 : (checkAddKbStats s).1 = true := by simpa using hb
        have hr : checkAddKbStats s = (true, (checkAddKbStats s).2) := by
          have heta : checkAddKbStats s =
              ((checkAddKbStats s).1, (checkAddKbStats s).2) := rfl
          rw [h1] at heta
          exact heta
        obtain ⟨blk', hblk, hallp⟩ := checkAddKbStats_true_all_present hr
        have hhkb : s'.headKB = (checkAddKbStats s).2.headKB := by
          rw [← hs']
        have hcheck : checkAllStatsPresent s' = .ok true := by
          unfold checkAllStatsPresent
          rw [hhkb, hblk]
          simp only [fromOpt, Bind.bind, Except.bind]
          congr 1
          rw [List.all_eq_true]
          intro n hn
          exact hallp n hn
        constructor
        · unfold insertMetrics
          rw [hcheck]
          simp [Bind.bind, Except.bind, pure, Except.pure]
        · unfold insertMetrics
          rw [hcheck]
          simp [Bind.bind, Except.bind, pure, Except.pure, Except.map]

/-- The state of `cs2` after a successful first `insert_metrics`. -/
def stateAfter2 : KBState :=
  match insertMetrics cs2 with
  | .ok p => p.2
  | .error _ => cs2

/-- C5 witness: the first `insert_metrics` on `cs2` adds metrics; the second
call warns and changes nothing. -/
theorem C5_witness :
    insertMetrics cs2 = .ok (.added, stateAfter2) ∧
    insertMetrics stateAfter2 = .ok (.allPresent, stateAfter2) := by
  have h : insertMetrics cs2 = .ok (.added, stateAfter2) := by
    with_unfolding_all rfl
  exact ⟨h, (C5_insert_metrics_idempotent cs2 stateAfter2 h).1⟩

/-! ### C9: the serializer's HEAD rewrite -/

/-- Schema of the C9 substring example: a PERSON block and a stats block. -/
def hkbC9a : HeadKB :=
  [("PERSON", [(some "NAME", 0), (some "TYPE", 1)]),
   ("__stats__", [(some "WIKI BACKLINKS", 0)])]

/-- HEAD lines of the C9 substring example: the PERSON line's third field
contains `<__stats__>` inside a flags wrapper (such a field matches no column
pattern, so it only occupies an unnamed slot). -/
def headLinesC9a : List (List String) :=
  [["<PERSON>NAME", "TYPE", "{x}<__stats__>y"], ["<__stats__>WIKI BACKLINKS"]]

/-- C9 state A: the PERSON head line contains the `<__stats__>` substring in a
non-first field. -/
def csA : KBState := initState hkbC9a (some 1) headLinesC9a "" [["p", "PERSON"]]

/-- C9 state B: a KB whose schema never gained a `__stats__` block. -/
def csB : KBState :=
  initState [("__generic__", [(some "TYPE", 0)])] (some 0) [["<__generic__>TYPE"]] "" [["x"]]

/-- C9 counterexample: (a) a HEAD line whose *first* field carries the PERSON
tag — not the `__stats__` tag — is nevertheless rewritten into the stats line,
because the serializer's test is a substring search over *all* fields; and
(b) on a KB with no `__stats__` block at all, `save_changes` raises a KeyError
instead of synthesizing and appending a `__stats__` line. -/
theorem C9_counterexample :
    fieldAt headLinesC9a 0 0 = some "<PERSON>NAME" ∧
    hasSub "<PERSON>NAME" "<__stats__>" = false ∧
    saveChanges csA = .ok ["<__stats__>WIKI BACKLINKS", "<__stats__>WIKI BACKLINKS", "",
      "p\tPERSON", ""] ∧
    ("<__stats__>WIKI BACKLINKS" : String) ≠
      tabJoin ["<PERSON>NAME", "TYPE", "{x}<__stats__>y"] ∧
    saveChanges csB = .error .key := by
  refine ⟨by rfl, by rfl, by with_unfolding_all rfl, by decide, by with_unfolding_all rfl⟩

theorem saveHead_fold {hkb : HeadKB} {sl : String} (hsl : statsHeadLine hkb = .ok sl)
    (ls : List (List String)) (acc : List String × Bool) :
    ls.foldlM (saveHeadStep hkb) acc =
      .ok (acc.1 ++ ls.map (fun l =>
            if l.any (fun c => hasSub c "<__stats__>") then sl else tabJoin l),
          acc.2 || ls.any (fun l => l.any (fun c => hasSub c "<__stats__>"))) := by
  induction ls generalizing acc with
  | nil => simp [List.foldlM, pure, Except.pure]
  | cons l ls ih =>
      rw [List.foldlM_cons]
      by_cases hl : l.any (fun c => hasSub c "<__stats__>") = true
      · have hstep : saveHeadStep hkb acc l = .ok (acc.1 ++ [sl], true) := by
          unfold saveHeadStep
          rw [if_pos hl]
          rw [exBind_eq_ok]
          exact ⟨sl, hsl, rfl⟩
        rw [hstep]
        simp only [Bind.bind, Except.bind]
        rw [ih]
        rw [List.map_cons, List.any_cons, hl]
        simp [List.append_assoc]
      · have hstep : saveHeadStep hkb acc l = .ok (acc.1 ++ [tabJoin l], acc.2) := by
          unfold saveHeadStep
          rw [if_neg hl]
          rfl
        rw [hstep]
        simp only [Bind.bind, Except.bind]
        rw [ih]
        simp only [Bool.not_eq_true] at hl
        rw [List.map_cons, List.any_cons, hl]
        simp [List.append_assoc]

/-- C9 amended: whenever the schema has a `__stats__` entry with all-named
keys (so that the rewritten stats line `sl` is well defined), serialization
writes: the version line if non-empty; every original HEAD line tab-joined
unchanged **except** that any line one of whose fields *contains the
substring* `<__stats__>` is replaced by `sl`; a synthesized `sl` appended
only when no head line contained the substring; then the blank separator,
the tab-joined data rows and a trailing blank.  (With no `__stats__` schema
entry, serialization fails instead — see the counterexample.) -/
theorem C9_amended_serializer (s : KBState) (sl : String)
    (hsl : statsHeadLine s.headKB = .ok sl) :
    saveChanges s = .ok (
      (if s.version ≠ "" then [s.version] else []) ++
      (s.headLines.map (fun l =>
        if l.any (fun c => hasSub c "<__stats__>") then sl else tabJoin l) ++
       (if s.headLines.any (fun l => l.any (fun c => hasSub c "<__stats__>"))
        then [] else [sl])) ++
      [""] ++ s.lines.map tabJoin ++ [""]) := by
  unfold saveChanges
  rw [saveHead_fold hsl]
  simp only [Bind.bind, Except.bind, Bool.false_or]
  by_cases hany : s.headLines.any (fun l => l.any (fun c => hasSub c "<__stats__>")) = true
  · rw [hany]
    simp [pure, Except.pure, List.append_assoc]
  · simp only [Bool.not_eq_true] at hany
    rw [hany]
    simp [pure, Except.pure, hsl, Bind.bind, Except.bind, List.append_assoc]

/-- C9 witness: the amended characterization applied to `csA` yields its
concrete serialized output. -/
theorem C9_witness :
    statsHeadLine csA.headKB = .ok "<__stats__>WIKI BACKLINKS" ∧
    saveChanges csA = .ok ["<__stats__>WIKI BACKLINKS", "<__stats__>WIKI BACKLINKS", "",
      "p\tPERSON", ""] := by
  have hsl : statsHeadLine csA.headKB = .ok "<__stats__>WIKI BACKLINKS" := by
    with_unfolding_all rfl
  refine ⟨hsl, ?_⟩
  have h := C9_amended_serializer csA "<__stats__>WIKI BACKLINKS" hsl
  rw [h]
  with_unfolding_all rfl

/-! ### C1: the percentile index formula -/

/-- Maximum of a list of integers (0 for the empty list; only used nonempty). -/
def listMax : List Int → Int
  | [] => 0
  | x :: xs => xs.foldl max x

/-- The percentile mapping as the claim words it: `min(1.0, v / cap)` with
`cap` the bucket maximum, quartered for `wiki_backlinks` / `wiki_hits`, and
percentile 1.0 throughout when the cap is 0. -/
def specPercentileC1 (j : String) (m v : Int) : ℚ :=
  let cap : ℚ := if j = "wiki_backlinks" ∨ j = "wiki_hits" then (1 / 4) * (m : ℚ) else (m : ℚ)
  if cap = 0 then 1 else min 1 ((v : ℚ) / cap)

theorem le_foldl_max (xs : List Int) : ∀ a : Int, a ≤ xs.foldl max a := by
  induction xs with
  | nil => intro a; exact le_refl a
  | cons x xs ih => intro a; exact le_trans (le_max_left a x) (ih (max a x))

theorem mem_le_foldl_max (xs : List Int) : ∀ (a x : Int), x ∈ xs → x ≤ xs.foldl max a := by
  induction xs with
  | nil => intro a x hx; cases hx
  | cons z zs ih =>
      intro a x hx
      rcases List.mem_cons.mp hx with rfl | hx'
      · exact le_trans (le_max_right a x) (le_foldl_max zs (max a x))
      · exact ih (max a z) x hx'

theorem foldl_max_mem (xs : List Int) : ∀ a : Int, xs.foldl max a = a ∨ xs.foldl max a ∈ xs := by
  induction xs with
  | nil => intro a; exact Or.inl rfl
  | cons x xs ih =>
      intro a
      rcases ih (max a x) with h | h
      · rcases max_choice a x with hm | hm
        · exact Or.inl (by rw [List.foldl_cons, h, hm])
        · refine Or.inr (List.mem_cons.mpr (Or.inl ?_))
          rw [List.foldl_cons, h, hm]
      · exact Or.inr (List.mem_cons.mpr (Or.inr (by rw [List.foldl_cons]; exact h)))

theorem listMax_ge {l : List Int} {x : Int} (hx : x ∈ l) : x ≤ listMax l := by
  cases l with
  | nil => cases hx
  | cons y ys =>
      rcases List.mem_cons.mp hx with rfl | hx'
      · exact le_foldl_max ys x
      · exact mem_le_foldl_max ys y x hx'

theorem listMax_mem {l : List Int} (h : l ≠ []) : listMax l ∈ l := by
  cases l with
  | nil => exact absurd rfl h
  | cons y ys =>
      rcases foldl_max_mem ys y with h' | h'
      · exact List.mem_cons.mpr (Or.inl (by rw [listMax, h']))
      · exact List.mem_cons.mpr (Or.inr (by rw [listMax]; exact h'))

theorem getLastD_mem {l : List Int} (h : l ≠ []) (d : Int) : l.getLastD d ∈ l := by
  induction l generalizing d with
  | nil => exact absurd rfl h
  | cons x xs ih =>
      rw [List.getLastD_cons]
      cases xs with
      | nil => simp [List.getLastD]
      | cons y ys => exact List.mem_cons.mpr (Or.inr (ih (by simp) x))

theorem sorted_le_getLastD {l : List Int}
    (hs : List.Sorted (fun a b : Int => a ≤ b) l) {x : Int} (hx : x ∈ l) (d : Int) :
    x ≤ l.getLastD d := by
  induction l generalizing d with
  | nil => cases hx
  | cons a t ih =>
      rw [List.sorted_cons] at hs
      rw [List.getLastD_cons]
      cases t with
      | nil =>
          rcases List.mem_cons.mp hx with rfl | hx'
          · simp [List.getLastD]
          · cases hx'
      | cons b u =>
          rcases List.mem_cons.mp hx with rfl | hx'
          · exact hs.1 _ (getLastD_mem (by simp) x)
          · exact ih hs.2 hx' a

theorem sorted_getLastD_eq_listMax {l : List Int} (h : l ≠ []) :
    (List.insertionSort (fun a b : Int => a ≤ b) l).getLastD 0 = listMax l := by
  have hperm : (List.insertionSort (fun a b : Int => a ≤ b) l).Perm l :=
    List.perm_insertionSort _ l
  have hne : List.insertionSort (fun a b : Int => a ≤ b) l ≠ [] := by
    intro hnil
    rw [hnil] at hperm
    exact h hperm.symm.eq_nil
  have hsorted := List.sorted_insertionSort (fun a b : Int => a ≤ b) l
  apply le_antisymm
  · exact listMax_ge (hperm.mem_iff.mp (getLastD_mem hne 0))
  · exact sorted_le_getLastD hsorted (hperm.mem_iff.mpr (listMax_mem h)) 0

theorem contains_wiki_iff (j : String) :
    (["wiki_backlinks", "wiki_hits"].contains j) = true ↔
      (j = "wiki_backlinks" ∨ j = "wiki_hits") := by
  show (["wiki_backlinks", "wiki_hits"].elem j) = true ↔ _
  rw [List.elem_iff]
  simp

theorem pctVal_sorted_eq_spec (j : String) {l : List Int} (h : l ≠ []) (v : Int) :
    pctVal j (List.insertionSort (fun a b : Int => a ≤ b) l) v =
      specPercentileC1 j (listMax l) v := by
  unfold pctVal specPercentileC1
  dsimp only
  rw [sorted_getLastD_eq_listMax h]
  by_cases hj : j = "wiki_backlinks" ∨ j = "wiki_hits"
  · rw [if_pos ((contains_wiki_iff j).mpr hj), if_pos hj]
    have h14 : (25 / 100 : ℚ) = 1 / 4 := by norm_num
    rw [h14, min_comm]
  · rw [if_neg (fun hc => hj ((contains_wiki_iff j).mp hc)), if_neg hj]
    rw [min_comm]

theorem aget_indexFold (f : Int → ℚ) (l : List Int) :
    ∀ (e : List (Int × ℚ)) (w : Int),
    aget (l.foldl (fun e v => if (aget e v).isSome then e else e ++ [(v, f v)]) e) w =
      match aget e w with
      | some x => some x
      | none => if w ∈ l then some (f w) else none := by
  induction l with
  | nil =>
      intro e w
      cases hw : aget e w <;> simp [hw]
  | cons v l' ih =>
      intro e w
      rw [List.foldl_cons]
      by_cases hv : (aget e v).isSome
      · rw [if_pos hv, ih]
        cases hw : aget e w with
        | some x => simp
        | none =>
            simp only
            by_cases hwv : w = v
            · rw [hwv] at hw
              rw [hw] at hv
              simp at hv
            · simp [List.mem_cons, hwv]
      · rw [if_neg hv, ih]
        rw [aget_append_one]
        cases hw : aget e w with
        | some x => simp
        | none =>
            simp only
            by_cases hwv : w = v
            · simp [hwv]
            · simp [hwv, List.mem_cons]

theorem aget_indexOne_of_mem {j : String} {lst : List Int} {w : Int}
    (hw : w ∈ lst) : aget (indexOne j lst []) w = some (pctVal j lst w) := by
  unfold indexOne
  rw [aget_indexFold]
  simp [aget, hw]

theorem iGet_setIdx (idx : MetricIndex) (i : List String) (j : String)
    (e : List (Int × ℚ)) (i' : List String) (j' : String) :
    iGet (setIdx idx i j e) i' j' =
      if i' = i ∧ j' = j then some e else iGet idx i' j' := by
  unfold iGet setIdx
  rw [aget_aupd]
  by_cases hk : i' = i
  · simp only [hk, if_true, Option.getD_some]
    rw [aget_aupd]
    by_cases hj : j' = j
    · simp [hj]
    · simp [hj]
  · simp [hk]

theorem iGet_indexMetricStep_other (i : List String) (idx : MetricIndex)
    (q : String × List Int) (i' : List String) (j' : String)
    (h : ¬(i' = i ∧ j' = q.1)) :
    iGet (indexMetricStep i idx q) i' j' = iGet idx i' j' := by
  unfold indexMetricStep
  by_cases he : q.2.isEmpty
  · rw [if_pos he]
  · rw [if_neg he, iGet_setIdx, if_neg h]

theorem iGet_innerFold_preserve (i : List String) (j' : String)
    (inner : List (String × List Int)) :
    ∀ (idx : MetricIndex) (i' : List String), (∀ q ∈ inner, ¬(i' = i ∧ j' = q.1)) →
    iGet (inner.foldl (indexMetricStep i) idx) i' j' = iGet idx i' j' := by
  induction inner with
  | nil => intro idx i' _; rfl
  | cons q rest ih =>
      intro idx i' hq
      rw [List.foldl_cons, ih _ _ (fun q' hq' => hq q' (List.mem_cons.mpr (Or.inr hq'))),
        iGet_indexMetricStep_other _ _ _ _ _ (hq q (List.mem_cons.mpr (Or.inl rfl)))]

theorem iGet_bucketStep_other (idx : MetricIndex)
    (p : List String × List (String × List Int)) (i' : List String) (j' : String)
    (h : i' ≠ p.1) :
    iGet (indexBucketStep idx p) i' j' = iGet idx i' j' := by
  unfold indexBucketStep
  exact iGet_innerFold_preserve p.1 j' p.2 idx i' (fun q _ hq => h hq.1)

theorem iGet_innerFold_at (i : List String) (j : String) (lst : List Int)
    (inner : List (String × List Int)) :
    ∀ idx : MetricIndex, (inner.map Prod.fst).Nodup → (j, lst) ∈ inner → lst ≠ [] →
    iGet (inner.foldl (indexMetricStep i) idx) i j =
      some (indexOne j lst (getIdx idx i j)) := by
  induction inner with
  | nil => intro idx _ hmem _; cases hmem
  | cons q rest ih =>
      intro idx hnd hmem hne
      rw [List.map_cons, List.nodup_cons] at hnd
      rw [List.foldl_cons]
      rcases List.mem_cons.mp hmem with rfl | hmem'
      · -- the head is our metric: it is set here and preserved afterwards
        have hstep : indexMetricStep i idx (j, lst) =
            setIdx idx i j (indexOne j lst (getIdx idx i j)) := by
          unfold indexMetricStep
          rw [if_neg (by simpa [List.isEmpty_iff] using hne)]
        rw [hstep]
        rw [iGet_innerFold_preserve i j rest _ i (fun q' hq' hcon => hnd.1
          (by rw [hcon.2]; exact List.mem_map.mpr ⟨q', hq', rfl⟩))]
        rw [iGet_setIdx, if_pos ⟨rfl, rfl⟩]
      · -- a different metric comes first; it cannot touch the (i, j) entry
        have hjq : j ≠ q.1 := by
          intro hcon
          exact hnd.1 (hcon ▸ List.mem_map.mpr ⟨(j, lst), hmem', rfl⟩)
        have hpres : iGet (indexMetricStep i idx q) i j = iGet idx i j :=
          iGet_indexMetricStep_other i idx q i j (fun hcon => hjq hcon.2)
        rw [ih (indexMetricStep i idx q) hnd.2 hmem' hne]
        unfold getIdx
        rw [hpres]

theorem iGet_outerFold_preserve (i' : List String) (j' : String) (rest : Metrics) :
    ∀ idx : MetricIndex, (∀ p ∈ rest, p.1 ≠ i') →
    iGet (rest.foldl indexBucketStep idx) i' j' = iGet idx i' j' := by
  induction rest with
  | nil => intro idx _; rfl
  | cons r rs ih =>
      intro idx hr
      rw [List.foldl_cons, ih _ (fun p hp => hr p (List.mem_cons.mpr (Or.inr hp))),
        iGet_bucketStep_other idx r i' j' (Ne.symm (hr r (List.mem_cons.mpr (Or.inl rfl))))]

theorem iGet_indexPass_at (m : Metrics) (i : List String)
    (inner : List (String × List Int)) (j : String) (lst : List Int) :
    ∀ idx : MetricIndex, (m.map Prod.fst).Nodup → (i, inner) ∈ m →
    (inner.map Prod.fst).Nodup → (j, lst) ∈ inner → lst ≠ [] →
    iGet (indexPass m idx) i j = some (indexOne j lst (getIdx idx i j)) := by
  induction m with
  | nil => intro idx _ hmem; cases hmem
  | cons p rest ih =>
      intro idx hnd hmem hnin hjl hne
      rw [List.map_cons, List.nodup_cons] at hnd
      unfold indexPass at *
      rw [List.foldl_cons]
      rcases List.mem_cons.mp hmem with rfl | hmem'
      · -- our bucket is processed first; the remaining buckets have other keys
        have hrest : ∀ q ∈ rest, q.1 ≠ i := by
          intro q hq hcon
          exact hnd.1 (hcon ▸ List.mem_map.mpr ⟨q, hq, rfl⟩)
        rw [iGet_outerFold_preserve i j rest _ hrest]
        unfold indexBucketStep
        exact iGet_innerFold_at i j lst inner idx hnin hjl hne
      · -- another bucket comes first; it cannot touch bucket i
        have hpi : i ≠ p.1 := by
          intro hcon
          exact hnd.1 (hcon ▸ List.mem_map.mpr ⟨(i, inner), hmem', rfl⟩)
        rw [ih _ hnd.2 hmem' hnin hjl hne]
        have hg : getIdx (indexBucketStep idx p) i j = getIdx idx i j := by
          unfold getIdx
          rw [iGet_bucketStep_other idx p i j hpi]
        rw [hg]

theorem map_fst_mapped {α β γ : Type} (l : List (α × β)) (g : α → β → γ) :
    (l.map (fun p => (p.1, g p.1 p.2))).map Prod.fst = l.map Prod.fst := by
  rw [List.map_map]
  rfl

/-- C1: for every statistics bucket `i` and metric `j` of the metrics
dictionary, the index built by the sort and index passes maps each observed
raw value `v` to `min(1.0, v / cap)` where `cap` is the maximum observed value
(`listMax lst`, shown maximal by the last two conjuncts), except that for
`wiki_backlinks` and `wiki_hits` the cap is a quarter of the maximum; and when
the cap is 0 the percentile is 1.0 — exactly `specPercentileC1`. -/
theorem C1_percentile_index_formula (m : Metrics) (i : List String)
    (inner : List (String × List Int)) (j : String) (lst : List Int) (v : Int)
    (hnd : (m.map Prod.fst).Nodup) (hm : (i, inner) ∈ m)
    (hnin : (inner.map Prod.fst).Nodup) (hj : (j, lst) ∈ inner) (hv : v ∈ lst) :
    aget3 (indexPass (sortPass m) []) i j v = some (specPercentileC1 j (listMax lst) v) ∧
    listMax lst ∈ lst ∧ ∀ x ∈ lst, x ≤ listMax lst := by
  have hne : lst ≠ [] := List.ne_nil_of_mem hv
  have hmem2 : (j, List.insertionSort (fun a b : Int => a ≤ b) lst) ∈
      inner.map (fun q => (q.1, List.insertionSort (fun a b : Int => a ≤ b) q.2)) :=
    List.mem_map.mpr ⟨(j, lst), hj, rfl⟩
  have hmem1 : (i, inner.map (fun q =>
      (q.1, List.insertionSort (fun a b : Int => a ≤ b) q.2))) ∈ sortPass m :=
    List.mem_map.mpr ⟨(i, inner), hm, rfl⟩
  have hnd1 : ((sortPass m).map Prod.fst).Nodup := by
    unfold sortPass
    rw [map_fst_mapped m (fun a b => b.map (fun q =>
      (q.1, List.insertionSort (fun x y : Int => x ≤ y) q.2)))]
    exact hnd
  have hnin1 : ((inner.map (fun q =>
      (q.1, List.insertionSort (fun a b : Int => a ≤ b) q.2))).map Prod.fst).Nodup := by
    rw [map_fst_mapped inner (fun a b => List.insertionSort (fun x y : Int => x ≤ y) b)]
    exact hnin
  have hsne : List.insertionSort (fun a b : Int => a ≤ b) lst ≠ [] := by
    intro hnil
    have hperm := List.perm_insertionSort (fun a b : Int => a ≤ b) lst
    rw [hnil] at hperm
    exact hne hperm.symm.eq_nil
  have hig := iGet_indexPass_at (sortPass m) i _ j
    (List.insertionSort (fun a b : Int => a ≤ b) lst) [] hnd1 hmem1 hnin1 hmem2 hsne
  have hgempty : getIdx ([] : MetricIndex) i j = [] := rfl
  rw [hgempty] at hig
  have hvs : v ∈ List.insertionSort (fun a b : Int => a ≤ b) lst :=
    (List.perm_insertionSort (fun a b : Int => a ≤ b) lst).mem_iff.mpr hv
  have haget3 : aget3 (indexPass (sortPass m) []) i j v =
      aget (indexOne j (List.insertionSort (fun a b : Int => a ≤ b) lst) []) v := by
    unfold aget3
    cases hidx : aget (indexPass (sortPass m) []) i with
    | none =>
        exfalso
        unfold iGet at hig
        rw [hidx] at hig
        simp [aget] at hig
    | some inn =>
        unfold iGet at hig
        rw [hidx] at hig
        simp only [Option.getD_some] at hig
        simp [hig]
  refine ⟨?_, listMax_mem hne, fun x hx => listMax_ge hx⟩
  rw [haget3, aget_indexOne_of_mem hvs, pctVal_sorted_eq_spec j hne v]

/-- Metrics dictionary of the C1 witness: one bucket, one metric. -/
def cm1 : Metrics := [(["t"], [("wiki_backlinks", [1, 8])])]

/-- C1 witness: with observations `[1, 8]` for `wiki_backlinks`, the cap is
`8/4 = 2` and the percentile of 1 is `1/2`. -/
theorem C1_witness :
    aget3 (indexPass (sortPass cm1) []) ["t"] "wiki_backlinks" 1 =
      some (specPercentileC1 "wiki_backlinks" (listMax [1, 8]) 1) ∧
    specPercentileC1 "wiki_backlinks" (listMax [1, 8]) 1 = 1 / 2 := by
  refine ⟨(C1_percentile_index_formula cm1 ["t"] [("wiki_backlinks", [1, 8])]
    "wiki_backlinks" [1, 8] 1 (by decide) (by simp [cm1]) (by decide) (by simp) (by decide)).1,
    by with_unfolding_all rfl⟩

/-! ### C8: the TYPE-column invariant of `getDictHeadKB` -/

/-- Does every field of a HEAD line match its column pattern?  (First field
against `PARSER_FIRST`, the rest against `PARSER_OTHER`.) -/
def lineWF (fields : List String) : Bool :=
  match fields with
  | [] => true
  | f0 :: rest => (matchFirst f0).isSome && rest.all (fun f => (matchOther f).isSome)

/-- Does every field of every HEAD line match its column pattern? -/
def headWF (lines : List (List String)) : Bool := lines.all lineWF

/-- Columns (from index `i` on) whose parsed name is `TYPE`. -/
def typeColsFrom (i : Nat) : List String → List Nat
  | [] => []
  | f :: fs => (if matchOther f = some "TYPE" then [i] else []) ++ typeColsFrom (i + 1) fs

/-- Columns of one HEAD line whose parsed name is `TYPE`. -/
def typeColsLine : List String → List Nat
  | [] => []
  | f0 :: rest =>
      (if (matchFirst f0).bind Prod.snd = some "TYPE" then [0] else []) ++ typeColsFrom 1 rest

/-- All TYPE-named columns of the HEAD, in scan order. -/
def typeColsOf (lines : List (List String)) : List Nat := (lines.map typeColsLine).flatten

/-- Do all TYPE occurrences sit in one absolute column? -/
def oneTypeCol (tcs : List Nat) : Bool :=
  match tcs with
  | [] => true
  | c :: r => r.all (fun x => x == c)

/-- Is the scanned TYPE-column list consistent with an already-recorded
column? -/
def compat (e : Option Nat) (tcs : List Nat) : Bool :=
  match e with
  | some c => tcs.all (fun x => x == c)
  | none => oneTypeCol tcs

/-- The TYPE column recorded after scanning `tcs` on top of `e`. -/
def resOf (e : Option Nat) (tcs : List Nat) : Option Nat :=
  match e with
  | some c => some c
  | none => tcs.head?

theorem compat_nil (e : Option Nat) : compat e [] = true := by
  cases e <;> rfl

theorem resOf_nil (e : Option Nat) : resOf e [] = e := by
  cases e <;> rfl

theorem compat_append (e : Option Nat) (a b : List Nat) :
    compat e (a ++ b) = (compat e a && compat (resOf e a) b) := by
  cases e with
  | some c => simp [compat, resOf, List.all_append]
  | none =>
      cases a with
      | nil => simp [compat, resOf, oneTypeCol]
      | cons c r => simp [compat, resOf, oneTypeCol, List.all_append]

theorem resOf_append (e : Option Nat) (a b : List Nat) :
    resOf e (a ++ b) = resOf (resOf e a) b := by
  cases e with
  | some c => rfl
  | none =>
      cases a with
      | nil => rfl
      | cons c r => rfl

/-- The state written by a non-first column whose field parses to `nm`. -/
def hColState (st : HSt) (i : Nat) (nm : String) : HSt :=
  { st with
    hkb := aset st.hkb st.headType (aset ((aget st.hkb st.headType).getD []) (some nm) i),
    colName := some nm }

theorem hCol_ne_zero (st : HSt) {i : Nat} (hi : i ≠ 0) {f : String} {nm : String}
    (hnm : matchOther f = some nm) :
    hCol st i f = hCheck (hColState st i nm) i := by
  unfold hCol hColState
  rw [if_neg hi, hnm]

theorem hCheck_notType {st : HSt} {i : Nat} (h : st.colName ≠ some "TYPE") :
    hCheck st i = .ok st := by
  unfold hCheck
  rw [if_neg h]

theorem hCheck_type_none {st : HSt} {i : Nat} (h : st.colName = some "TYPE")
    (he : st.entCol = none) : hCheck st i = .ok { st with entCol := some i } := by
  unfold hCheck
  rw [if_pos h, he]

theorem hCheck_type_same {st : HSt} {i : Nat} (h : st.colName = some "TYPE")
    (he : st.entCol = some i) : hCheck st i = .ok st := by
  unfold hCheck
  rw [if_pos h, he]
  simp

theorem hCheck_type_diff {st : HSt} {i c : Nat} (h : st.colName = some "TYPE")
    (he : st.entCol = some c) (hne : c ≠ i) : hCheck st i = .error .typeCol := by
  unfold hCheck
  rw [if_pos h, he]
  simp [hne]

theorem hCols_invariant (fs : List String) : ∀ (i : Nat) (st : HSt), i ≠ 0 →
    fs.all (fun f => (matchOther f).isSome) = true →
    (if compat st.entCol (typeColsFrom i fs) = true then
       ∃ st', hCols st i fs = .ok st' ∧ st'.entCol = resOf st.entCol (typeColsFrom i fs)
     else hCols st i fs = .error .typeCol) := by
  induction fs with
  | nil =>
      intro i st hi _
      rw [typeColsFrom, if_pos (compat_nil st.entCol)]
      exact ⟨st, rfl, (resOf_nil st.entCol).symm⟩
  | cons f fs ih =>
      intro i st hi hwf
      rw [List.all_cons, Bool.and_eq_true] at hwf
      obtain ⟨hf, hwf⟩ := hwf
      rw [Option.isSome_iff_exists] at hf
      obtain ⟨nm, hnm⟩ := hf
      have hstep : hCols st i (f :: fs) = (hCol st i f) >>= fun st1 => hCols st1 (i + 1) fs :=
        rfl
      have hcn : (hColState st i nm).colName = some nm := rfl
      have hce : (hColState st i nm).entCol = st.entCol := rfl
      by_cases hT : nm = "TYPE"
      · subst hT
        have htc : typeColsFrom i (f :: fs) = i :: typeColsFrom (i + 1) fs := by
          rw [typeColsFrom, hnm, if_pos rfl]
          rfl
        rw [htc]
        cases hec : st.entCol with
        | none =>
            have hchk : hCol st i f = .ok { hColState st i "TYPE" with entCol := some i } :=
              (hCol_ne_zero st hi hnm).trans (hCheck_type_none hcn (hce.trans hec))
            have hih := ih (i + 1) { hColState st i "TYPE" with entCol := some i }
              (by simp) hwf
            by_cases hcmp : compat (some i) (typeColsFrom (i + 1) fs) = true
            · rw [if_pos hcmp] at hih
              obtain ⟨st', hok, hres⟩ := hih
              rw [if_pos (by simpa [compat, oneTypeCol] using hcmp)]
              refine ⟨st', ?_, ?_⟩
              · rw [hstep, hchk]
                simpa [Bind.bind, Except.bind] using hok
              · rw [hres]
                rfl
            · rw [if_neg hcmp] at hih
              rw [if_neg (show ¬(compat none (i :: typeColsFrom (i + 1) fs) = true) by
                simpa [compat, oneTypeCol] using hcmp)]
              rw [hstep, hchk]
              simpa [Bind.bind, Except.bind] using hih
        | some c =>
            by_cases hci : c = i
            · have hchk : hCol st i f = .ok (hColState st i "TYPE") :=
                (hCol_ne_zero st hi hnm).trans
                  (hCheck_type_same hcn (by rw [hce, hec, hci]))
              have hih := ih (i + 1) (hColState st i "TYPE") (by simp) hwf
              rw [hce, hec] at hih
              by_cases hcmp : compat (some c) (typeColsFrom (i + 1) fs) = true
              · rw [if_pos hcmp] at hih
                obtain ⟨st', hok, hres⟩ := hih
                rw [if_pos (show compat (some c) (i :: typeColsFrom (i + 1) fs) = true by
                  simp only [compat, List.all_cons, Bool.and_eq_true]
                  exact ⟨by simp [hci], by simpa [compat] using hcmp⟩)]
                refine ⟨st', ?_, ?_⟩
                · rw [hstep, hchk]
                  simpa [Bind.bind, Except.bind] using hok
                · rw [hres]
                  rfl
              · rw [if_neg hcmp] at hih
                rw [if_neg (show ¬(compat (some c) (i :: typeColsFrom (i + 1) fs) = true) by
                  simp only [compat, List.all_cons, Bool.and_eq_true]
                  intro hcon
                  exact hcmp (by simpa [compat] using hcon.2))]
                rw [hstep, hchk]
                simpa [Bind.bind, Except.bind] using hih
            · have hchk : hCol st i f = .error .typeCol :=
                (hCol_ne_zero st hi hnm).trans
                  (hCheck_type_diff hcn (hce.trans hec) hci)
              rw [if_neg (show ¬(compat (some c) (i :: typeColsFrom (i + 1) fs) = true) by
                simp only [compat, List.all_cons, Bool.and_eq_true]
                intro hcon
                exact hci (Eq.symm (by simpa using hcon.1)))]
              rw [hstep, hchk]
              rfl
      · -- a column whose name is not TYPE leaves the check state unchanged
        have htc : typeColsFrom i (f :: fs) = typeColsFrom (i + 1) fs := by
          rw [typeColsFrom, hnm, if_neg (fun hcon => hT (Option.some.inj hcon))]
          rfl
        have hchk : hCol st i f = .ok (hColState st i nm) :=
          (hCol_ne_zero st hi hnm).trans
            (hCheck_notType (by rw [hcn]; exact fun hcon => hT (Option.some.inj hcon)))
        rw [htc]
        have hih := ih (i + 1) (hColState st i nm) (by simp) hwf
        rw [hce] at hih
        by_cases hcmp : compat st.entCol (typeColsFrom (i + 1) fs) = true
        · rw [if_pos hcmp] at hih ⊢
          obtain ⟨st', hok, hres⟩ := hih
          exact ⟨st', by rw [hstep, hchk]; simpa [Bind.bind, Except.bind] using hok, hres⟩
        · rw [if_neg hcmp] at hih ⊢
          rw [hstep, hchk]
          simpa [Bind.bind, Except.bind] using hih

/-- The state written by a first column parsing to type tag `ty` and optional
name `nm`. -/
def hFirstState (st : HSt) (ty : String) (nm : Option String) : HSt :=
  let hkb1 := if (aget st.hkb ty).isSome then st.hkb else st.hkb ++ [(ty, [])]
  { st with
    hkb := aset hkb1 ty (aset ((aget hkb1 ty).getD []) nm 0),
    headType := ty,
    colName := nm }

theorem hCol_zero (st : HSt) {f : String} {ty : String} {nm : Option String}
    (hm : matchFirst f = some (ty, nm)) :
    hCol st 0 f = hCheck (hFirstState st ty nm) 0 := by
  unfold hCol hFirstState
  rw [if_pos rfl, hm]

theorem hLine_invariant (fields : List String) (st : HSt) (hwf : lineWF fields = true) :
    (if compat st.entCol (typeColsLine fields) = true then
       ∃ st', hLine st fields = .ok st' ∧ st'.entCol = resOf st.entCol (typeColsLine fields)
     else hLine st fields = .error .typeCol) := by
  cases fields with
  | nil =>
      rw [typeColsLine, if_pos (compat_nil st.entCol)]
      exact ⟨st, rfl, (resOf_nil st.entCol).symm⟩
  | cons f0 rest =>
      unfold lineWF at hwf
      rw [Bool.and_eq_true] at hwf
      obtain ⟨hf0, hwfr⟩ := hwf
      rw [Option.isSome_iff_exists] at hf0
      obtain ⟨⟨ty, nm⟩, hm⟩ := hf0
      have hstep : hLine st (f0 :: rest) =
          (hCol st 0 f0) >>= fun st1 => hCols st1 1 rest := rfl
      have hcn : (hFirstState st ty nm).colName = nm := rfl
      have hce : (hFirstState st ty nm).entCol = st.entCol := rfl
      by_cases hT : nm = some "TYPE"
      · subst hT
        have htc : typeColsLine (f0 :: rest) = 0 :: typeColsFrom 1 rest := by
          rw [typeColsLine, hm]
          rfl
        rw [htc]
        cases hec : st.entCol with
        | none =>
            have hchk : hCol st 0 f0 =
                .ok { hFirstState st ty (some "TYPE") with entCol := some 0 } :=
              (hCol_zero st hm).trans (hCheck_type_none hcn (hce.trans hec))
            have hih := hCols_invariant rest 1
              { hFirstState st ty (some "TYPE") with entCol := some 0 } (by simp) hwfr
            by_cases hcmp : compat (some 0) (typeColsFrom 1 rest) = true
            · rw [if_pos hcmp] at hih
              obtain ⟨st', hok, hres⟩ := hih
              rw [if_pos (by simpa [compat, oneTypeCol] using hcmp)]
              refine ⟨st', ?_, ?_⟩
              · rw [hstep, hchk]
                simpa [Bind.bind, Except.bind] using hok
              · rw [hres]
                rfl
            · rw [if_neg hcmp] at hih
              rw [if_neg (show ¬(compat none (0 :: typeColsFrom 1 rest) = true) by
                simpa [compat, oneTypeCol] using hcmp)]
              rw [hstep, hchk]
              simpa [Bind.bind, Except.bind] using hih
        | some c =>
            by_cases hci : c = 0
            · have hchk : hCol st 0 f0 = .ok (hFirstState st ty (some "TYPE")) :=
                (hCol_zero st hm).trans (hCheck_type_same hcn (by rw [hce, hec, hci]))
              have hih := hCols_invariant rest 1 (hFirstState st ty (some "TYPE"))
                (by simp) hwfr
              rw [hce, hec] at hih
              by_cases hcmp : compat (some c) (typeColsFrom 1 rest) = true
              · rw [if_pos hcmp] at hih
                obtain ⟨st', hok, hres⟩ := hih
                rw [if_pos (show compat (some c) (0 :: typeColsFrom 1 rest) = true by
                  simp only [compat, List.all_cons, Bool.and_eq_true]
                  exact ⟨by simp [hci], by simpa [compat] using hcmp⟩)]
                refine ⟨st', ?_, ?_⟩
                · rw [hstep, hchk]
                  simpa [Bind.bind, Except.bind] using hok
                · rw [hres]
                  rfl
              · rw [if_neg hcmp] at hih
                rw [if_neg (show ¬(compat (some c) (0 :: typeColsFrom 1 rest) = true) by
                  simp only [compat, List.all_cons, Bool.and_eq_true]
                  intro hcon
                  exact hcmp (by simpa [compat] using hcon.2))]
                rw [hstep, hchk]
                simpa [Bind.bind, Except.bind] using hih
            · have hchk : hCol st 0 f0 = .error .typeCol :=
                (hCol_zero st hm).trans (hCheck_type_diff hcn (hce.trans hec) hci)
              rw [if_neg (show ¬(compat (some c) (0 :: typeColsFrom 1 rest) = true) by
                simp only [compat, List.all_cons, Bool.and_eq_true]
                intro hcon
                exact hci (Eq.symm (by simpa using hcon.1)))]
              rw [hstep, hchk]
              rfl
      · have htc : typeColsLine (f0 :: rest) = typeColsFrom 1 rest := by
          have hbind : (some (ty, nm)).bind Prod.snd = nm := rfl
          rw [typeColsLine, hm, hbind, if_neg hT]
          rfl
        have hchk : hCol st 0 f0 = .ok (hFirstState st ty nm) :=
          (hCol_zero st hm).trans (hCheck_notType (by rw [hcn]; exact hT))
        rw [htc]
        have hih := hCols_invariant rest 1 (hFirstState st ty nm) (by simp) hwfr
        rw [hce] at hih
        by_cases hcmp : compat st.entCol (typeColsFrom 1 rest) = true
        · rw [if_pos hcmp] at hih ⊢
          obtain ⟨st', hok, hres⟩ := hih
          exact ⟨st', by rw [hstep, hchk]; simpa [Bind.bind, Except.bind] using hok, hres⟩
        · rw [if_neg hcmp] at hih ⊢
          rw [hstep, hchk]
          simpa [Bind.bind, Except.bind] using hih

theorem hLines_invariant (lines : List (List String)) : ∀ st : HSt,
    headWF lines = true →
    (if compat st.entCol (typeColsOf lines) = true then
       ∃ st', lines.foldlM hLine st = .ok st' ∧
         st'.entCol = resOf st.entCol (typeColsOf lines)
     else lines.foldlM hLine st = .error .typeCol) := by
  induction lines with
  | nil =>
      intro st _
      have htc : typeColsOf ([] : List (List String)) = [] := rfl
      rw [htc, if_pos (compat_nil st.entCol)]
      exact ⟨st, rfl, (resOf_nil st.entCol).symm⟩
  | cons L ls ih =>
      intro st hwf
      unfold headWF at hwf
      rw [List.all_cons, Bool.and_eq_true] at hwf
      obtain ⟨hL, hls⟩ := hwf
      have htc : typeColsOf (L :: ls) = typeColsLine L ++ typeColsOf ls := by
        unfold typeColsOf
        rw [List.map_cons, List.flatten_cons]
      rw [htc]
      have hline := hLine_invariant L st hL
      have hstep : (L :: ls).foldlM hLine st = (hLine st L) >>= fun st1 =>
          ls.foldlM hLine st1 := rfl
      by_cases hc1 : compat st.entCol (typeColsLine L) = true
      · rw [if_pos hc1] at hline
        obtain ⟨st1, hok1, hres1⟩ := hline
        have hih := ih st1 hls
        rw [hres1] at hih
        by_cases hc2 : compat (resOf st.entCol (typeColsLine L)) (typeColsOf ls) = true
        · rw [if_pos hc2] at hih
          obtain ⟨st', hok, hres⟩ := hih
          rw [if_pos (by rw [compat_append, hc1, hc2]; rfl)]
          refine ⟨st', ?_, ?_⟩
          · rw [hstep, hok1]
            simpa [Bind.bind, Except.bind] using hok
          · rw [hres, resOf_append]
        · rw [if_neg hc2] at hih
          rw [if_neg (by rw [compat_append, hc1]; simpa using hc2)]
          rw [hstep, hok1]
          simpa [Bind.bind, Except.bind] using hih
      · rw [if_neg hc1] at hline
        have hng : ¬(compat st.entCol (typeColsLine L ++ typeColsOf ls) = true) := by
          rw [compat_append]
          simp only [Bool.and_eq_true]
          intro hcon
          exact hc1 hcon.1
        rw [if_neg hng, hstep, hline]
        rfl

/-- C8 counterexample: in the HEAD `[["<PERSON>", "TYPE", "-"]]` the attribute
`TYPE` occupies one fixed absolute column (column 1 is its only occurrence),
yet parsing fails fatally with the TYPE-column error: the field `"-"` matches
no column pattern, so the Python local `col_name` keeps its stale value
`"TYPE"` and the consistency check re-fires at column 2. -/
theorem C8_counterexample :
    typeColsOf [["<PERSON>", "TYPE", "-"]] = [1] ∧
    oneTypeCol (typeColsOf [["<PERSON>", "TYPE", "-"]]) = true ∧
    getDictHeadKB [["<PERSON>", "TYPE", "-"]] = .error .typeCol := by
  refine ⟨by rfl, by rfl, by rfl⟩

/-- C8 amended: restricted to HEAD sections whose every field matches its
column pattern (so the stale-`col_name` effect of unmatched fields — see the
counterexample — cannot fire), parsing fails fatally with the TYPE-column
error **iff** the columns named `TYPE` do not all share one absolute index;
when they do, parsing succeeds and returns that index (the first TYPE
occurrence). -/
theorem C8_amended_type_column (hl : List (List String)) (hwf : headWF hl = true) :
    (oneTypeCol (typeColsOf hl) = true →
       ∃ hkb, getDictHeadKB hl = .ok (hkb, (typeColsOf hl).head?)) ∧
    (oneTypeCol (typeColsOf hl) = false → getDictHeadKB hl = .error .typeCol) := by
  have hinv := hLines_invariant hl
    { hkb := [], entCol := none, headType := "", colName := none } hwf
  constructor
  · intro h1
    rw [if_pos (show compat none (typeColsOf hl) = true from h1)] at hinv
    obtain ⟨st', hok, hres⟩ := hinv
    refine ⟨st'.hkb, ?_⟩
    unfold getDictHeadKB
    rw [hok]
    simp only [Bind.bind, Except.bind, pure, Except.pure]
    rw [hres]
    rfl
  · intro h0
    rw [if_neg (show ¬(compat none (typeColsOf hl) = true) by
      simp [compat, h0])] at hinv
    unfold getDictHeadKB
    rw [hinv]
    rfl

/-- C8 witness: a two-block well-formed HEAD with `TYPE` at column 1 in both
blocks parses successfully and returns column 1. -/
theorem C8_witness :
    headWF [["<PERSON>NAME", "TYPE"], ["<ANIMAL>NAME", "TYPE"]] = true ∧
    oneTypeCol (typeColsOf [["<PERSON>NAME", "TYPE"], ["<ANIMAL>NAME", "TYPE"]]) = true ∧
    getDictHeadKB [["<PERSON>NAME", "TYPE"], ["<ANIMAL>NAME", "TYPE"]] =
      .ok ([("PERSON", [(some "NAME", 0), (some "TYPE", 1)]),
            ("ANIMAL", [(some "NAME", 0), (some "TYPE", 1)])], some 1) := by
  refine ⟨by rfl, by rfl, ?_⟩
  obtain ⟨hkb, hok⟩ := (C8_amended_type_column
    [["<PERSON>NAME", "TYPE"], ["<ANIMAL>NAME", "TYPE"]] (by rfl)).1 (by rfl)
  have hcomp : getDictHeadKB [["<PERSON>NAME", "TYPE"], ["<ANIMAL>NAME", "TYPE"]] =
      .ok ([("PERSON", [(some "NAME", 0), (some "TYPE", 1)]),
            ("ANIMAL", [(some "NAME", 0), (some "TYPE", 1)])],
        (typeColsOf [["<PERSON>NAME", "TYPE"], ["<ANIMAL>NAME", "TYPE"]]).head?) := by
    rfl
  exact hcomp

end KBM
